import Mathlib

/-!
Verification of the directory-comparison core of `recursivist`
(`src/recursivist/compare.py`) against its specification.

The data model is the recursive dictionary produced by the external
`get_directory_structure` collaborator: a mapping whose reserved key
`"_files"` holds the list of file names of the directory and whose other
keys hold sub-dictionaries.  We embed it as `DirStructure`, with the
reserved key factored into the `files` field (`none` models the key being
absent, as for an empty directory) and every other key in the association
list `dirs`.  Python dict key sets are duplicate-free; `WF` states that
invariant (plus the walk's guarantee that a file list has no duplicates)
for theorems that need it.

`rich.Tree` output of `build_comparison_tree` is embedded as `CTree`
nodes carrying the rendered style string and the classification
(`Diff.onlyHere` for the green "only in this directory" highlight,
`Diff.onlyThere` for the red one, `Diff.common` for no highlight).

External collaborators that live in `recursivist/core.py` (not part of
the sources) are either taken as parameters (`get_directory_structure`,
`compile_regex_patterns`) or modelled from the spec where a definition is
unavoidable (`sort_files_by_type`).
-/

inductive DirStructure where
  | mk (files : Option (List String)) (dirs : List (String × DirStructure))

def DirStructure.files : DirStructure → Option (List String)
  | .mk f _ => f

def DirStructure.dirs : DirStructure → List (String × DirStructure)
  | .mk _ d => d

/-- The empty Python dict `{}` (no `"_files"` key, no subdirectories). -/
def emptyS : DirStructure := .mk none []

/-- Python truthiness of the structure dict: `{}` is falsy, every non-empty
dict is truthy. -/
def DirStructure.isEmptyD (s : DirStructure) : Bool :=
  s.files.isNone && s.dirs.isEmpty

/-- Membership of `k` in the dict's key set (`k in structure` in Python):
the reserved `"_files"` key counts when present. -/
def hasKey (s : DirStructure) (k : String) : Bool :=
  (k == "_files" && s.files.isSome) || s.dirs.any (fun p => p.1 == k)

/-- `structure.get(k, {})` for a non-reserved key. -/
def lookupD (s : DirStructure) (k : String) : DirStructure :=
  match s.dirs.find? (fun p => p.1 == k) with
  | some p => p.2
  | none => emptyS

mutual
def dsize : DirStructure → Nat
  | .mk _ dirs => 1 + dirsSize dirs
def dirsSize : List (String × DirStructure) → Nat
  | [] => 0
  | (_, c) :: rest => dsize c + dirsSize rest
end

theorem dsize_pos (s : DirStructure) : 1 ≤ dsize s := by
  cases s with | mk f d => simp [dsize]

theorem dsize_le_dirsSize {n : String} {c : DirStructure}
    {l : List (String × DirStructure)} (h : (n, c) ∈ l) : dsize c ≤ dirsSize l := by
  induction l with
  | nil => cases h
  | cons hd tl ih =>
    cases hd with | mk k v =>
    cases h with
    | head => simp [dirsSize]
    | tail _ h => have := ih h; simp [dirsSize]; omega

theorem dsize_lt_of_mem {n : String} {c : DirStructure} {s : DirStructure}
    (h : (n, c) ∈ s.dirs) : dsize c < dsize s := by
  cases s with | mk f d =>
  simp only [DirStructure.dirs] at h
  have := dsize_le_dirsSize h
  simp [dsize]
  omega

theorem dsize_emptyS : dsize emptyS = 1 := by
  simp [emptyS, dsize, dirsSize]

theorem dsize_lookupD_le (s : DirStructure) (k : String) :
    dsize (lookupD s k) ≤ dsize s := by
  unfold lookupD
  cases hf : s.dirs.find? (fun p => p.1 == k) with
  | none => rw [dsize_emptyS]; exact dsize_pos s
  | some p =>
    have hm := List.mem_of_find?_eq_some hf
    cases p with | mk n c =>
    exact Nat.le_of_lt (dsize_lt_of_mem hm)

/-- Well-formedness of a structure as the image of a Python dict built by
the walk: the key set has no duplicates (true of every dict) and a file
list has no repeated name (true of `os.walk` output); recursively so. -/
def keyAbsent (n : String) : List (String × DirStructure) → Bool
  | [] => true
  | (k, _) :: rest => (!(k == n)) && keyAbsent n rest

def keysNodup : List (String × DirStructure) → Bool
  | [] => true
  | (k, _) :: rest => keyAbsent k rest && keysNodup rest

def namesNodup : List String → Bool
  | [] => true
  | f :: rest => (!rest.contains f) && namesNodup rest

mutual
def WF : DirStructure → Bool
  | .mk files dirs => namesNodup (files.getD []) && keysNodup dirs && WFdirs dirs
def WFdirs : List (String × DirStructure) → Bool
  | [] => true
  | (_, c) :: rest => WF c && WFdirs rest
end

theorem WF_of_mem_WFdirs {l : List (String × DirStructure)} {n : String}
    {c : DirStructure} (hl : WFdirs l = true) (h : (n, c) ∈ l) : WF c = true := by
  induction l with
  | nil => cases h
  | cons hd tl ih =>
    cases hd with | mk k v =>
    simp only [WFdirs, Bool.and_eq_true] at hl
    cases h with
    | head => exact hl.1
    | tail _ h => exact ih hl.2 h

theorem WF_of_mem_dirs {s : DirStructure} {n : String} {c : DirStructure}
    (hs : WF s = true) (h : (n, c) ∈ s.dirs) : WF c = true := by
  cases s with | mk f d =>
  simp only [DirStructure.dirs] at h
  simp only [WF, Bool.and_eq_true] at hs
  exact WF_of_mem_WFdirs hs.2 h

theorem WF_emptyS : WF emptyS = true := by
  simp [emptyS, WF, namesNodup, keysNodup, WFdirs]

theorem WF_lookupD {s : DirStructure} (hs : WF s = true) (k : String) :
    WF (lookupD s k) = true := by
  unfold lookupD
  cases hf : s.dirs.find? (fun p => p.1 == k) with
  | none => exact WF_emptyS
  | some p =>
    cases p with | mk n c =>
    exact WF_of_mem_dirs hs (List.mem_of_find?_eq_some hf)

/-! String primitives.  Python compares strings by code point and
lower-cases per character; `os.path.splitext` takes the suffix from the
last dot of the basename, ignoring leading dots. -/

def charsLe : List Char → List Char → Bool
  | [], _ => true
  | _ :: _, [] => false
  | a :: as, b :: bs =>
    if a.toNat < b.toNat then true
    else if b.toNat < a.toNat then false
    else charsLe as bs

/-- Python string comparison `a <= b` (lexicographic by code point). -/
def strLe (a b : String) : Bool := charsLe a.data b.data

/-- Python `str.lower()` (faithful on the ASCII names the tool handles). -/
def strToLower (s : String) : String := String.mk (s.data.map Char.toLower)

/-- Python `s.startswith(".")`. -/
def startsWithDot (s : String) : Bool :=
  match s.data with
  | '.' :: _ => true
  | _ => false

/-- The suffix of `cs` starting at its last dot, if any. -/
def lastDotSuffix : List Char → Option (List Char)
  | [] => none
  | c :: cs =>
    match lastDotSuffix cs with
    | some suf => some suf
    | none => if c = '.' then some (c :: cs) else none

/-- Python `os.path.splitext(file)[1]`: the extension starts at the last
dot, except that the leading run of dots of the name never opens an
extension (`".gitignore"` has none). -/
def splitextExt (s : String) : String :=
  match lastDotSuffix (s.data.dropWhile (fun c => c = '.')) with
  | some suf => String.mk suf
  | none => ""

/-- Python `sorted` over the dict's items, which compares the (unique)
keys code point by code point. -/
def sortByKey (l : List (String × DirStructure)) : List (String × DirStructure) :=
  List.insertionSort (fun a b => strLe a.1 b.1 = true) l

theorem mem_sortByKey {x : String × DirStructure} {l : List (String × DirStructure)} :
    x ∈ sortByKey l ↔ x ∈ l := by
  simp [sortByKey, List.mem_insertionSort]

/-- Modelled from the spec: `sort_files_by_type` lives in
`recursivist/core.py`, which is not among the sources.  Per §4.2 it is a
stable order grouping files by type with name as the secondary key; we
model the type key as the `splitext` extension. -/
def sort_files_by_type (files : List String) : List String :=
  List.insertionSort
    (fun a b =>
      (if splitextExt a = splitextExt b then strLe a b
       else strLe (splitextExt a) (splitextExt b)) = true)
    files

theorem mem_sort_files_by_type {f : String} {l : List String} :
    f ∈ sort_files_by_type l ↔ f ∈ l := by
  simp [sort_files_by_type, List.mem_insertionSort]

theorem sort_files_by_type_perm (l : List String) :
    (sort_files_by_type l).Perm l :=
  List.perm_insertionSort _ l

/-- `color_map.get(ext, "#FFFFFF")` (`dict.get` with a default). -/
def colorMapGet (m : List (String × String)) (ext : String) : String :=
  match m.find? (fun p => p.1 == ext) with
  | some p => p.2
  | none => "#FFFFFF"

/-- Classification a rendered entry carries: the green "only in this
directory" highlight, no highlight, or the red "only in the other
directory" highlight. -/
inductive Diff where
  | onlyHere
  | common
  | onlyThere
deriving DecidableEq, Repr

inductive EKind where
  | file
  | dir
deriving DecidableEq, Repr

/-- A node of the rich tree `build_comparison_tree` grows: a file leaf
with its rendered style string, or a directory with its children. -/
inductive CTree where
  | file (name : String) (style : String) (d : Diff)
  | dir (name : String) (d : Diff) (children : List CTree)

/-- An entry of a structure, as a path of names from the root plus
whether it is a file or a directory. -/
abbrev EntryPath := List String × EKind

mutual
def markedOf (d : Diff) : CTree → List EntryPath
  | .file n _ d' => if d' = d then [([n], EKind.file)] else []
  | .dir n d' cs =>
    (if d' = d then [([n], EKind.dir)] else []) ++
      (markedList d cs).map (fun p => (n :: p.1, p.2))
def markedList (d : Diff) : List CTree → List EntryPath
  | [] => []
  | t :: ts => markedOf d t ++ markedList d ts
end

theorem markedList_append (d : Diff) (a b : List CTree) :
    markedList d (a ++ b) = markedList d a ++ markedList d b := by
  induction a with
  | nil => simp [markedList]
  | cons t ts ih => simp [markedList, ih]

theorem markedList_flatMap {α : Type} (d : Diff) (l : List α) (f : α → List CTree) :
    markedList d (l.flatMap f) = l.flatMap (fun x => markedList d (f x)) := by
  induction l with
  | nil => simp [markedList]
  | cons x xs ih => simp [List.flatMap_cons, markedList_append, ih]

theorem markedList_map {α : Type} (d : Diff) (l : List α) (f : α → CTree) :
    markedList d (l.map f) = l.flatMap (fun x => markedOf d (f x)) := by
  induction l with
  | nil => simp [markedList]
  | cons x xs ih => simp [List.flatMap_cons, markedList, ih]

theorem attach_flatMap {α β : Type _} (l : List α) (f : α → List β) :
    l.attach.flatMap (fun x => f x.1) = l.flatMap f := by
  have h := @List.flatMap_subtype α β (fun x => x ∈ l) l.attach (fun x => f x.1) f
    (fun x h => rfl)
  rw [List.unattach_attach] at h
  exact h

/-! `build_comparison_tree` (compare.py lines 72-128).  The four passes of
the source run in order: the current side's files (lines 89-100), the
current side's subdirectories (lines 102-111), files present only in the
comparison side (lines 113-120), subdirectories present only in the
comparison side (lines 122-128).  `tree.add` calls become list elements;
the style strings are the ones the source builds. -/

/-- Lines 89-100: one entry per file of the current side, highlighted
green when the file is not in the sibling's file list. -/
def classifyFiles (fs : List String) (filesInOther : List String)
    (m : List (String × String)) : List CTree :=
  (sort_files_by_type fs).map (fun file =>
    let ext := strToLower (splitextExt file)
    let color := colorMapGet m ext
    if !filesInOther.contains file then
      CTree.file file (color ++ " on green") Diff.onlyHere
    else
      CTree.file file color Diff.common)

/-- Lines 113-120: files of the sibling that never appeared here,
highlighted red. -/
def onlyThereFiles (fs : List String) (filesInThis : List String)
    (m : List (String × String)) : List CTree :=
  (sort_files_by_type fs).flatMap (fun file =>
    if !filesInThis.contains file then
      let ext := strToLower (splitextExt file)
      [CTree.file file (colorMapGet m ext ++ " on red") Diff.onlyThere]
    else [])

def build_comparison_tree (s o : DirStructure) (m : List (String × String)) :
    List CTree :=
  (match s.files with
   | some fs => classifyFiles fs (if !o.isEmptyD then o.files.getD [] else []) m
   | none => []) ++
  ((sortByKey s.dirs).attach.flatMap (fun x =>
    if x.1.1 = "_files" then []
    else
      let otherContent := if !o.isEmptyD then lookupD o x.1.1 else emptyS
      let children := build_comparison_tree x.1.2 otherContent m
      if !hasKey o x.1.1 then [CTree.dir x.1.1 Diff.onlyHere children]
      else [CTree.dir x.1.1 Diff.common children])) ++
  (if !o.isEmptyD && o.files.isSome then
    onlyThereFiles (o.files.getD []) (s.files.getD []) m
   else []) ++
  (if !o.isEmptyD then
    (sortByKey o.dirs).attach.flatMap (fun x =>
      if x.1.1 ≠ "_files" ∧ ¬ hasKey s x.1.1 then
        [CTree.dir x.1.1 Diff.onlyThere (build_comparison_tree emptyS x.1.2 m)]
      else [])
   else [])
termination_by dsize s + dsize o
decreasing_by
  · rename_i _hne
    have h1 : x.1 ∈ s.dirs := mem_sortByKey.mp x.2
    have h2 := dsize_lt_of_mem (n := x.1.1) (c := x.1.2) (s := s) (by simpa using h1)
    have h3 := dsize_lookupD_le o x.1.1
    have h4 := dsize_pos o
    have h5 := dsize_emptyS
    cases o.isEmptyD with
    | true => simp; omega
    | false => simp; omega
  · rename_i _hc
    have h1 : x.1 ∈ o.dirs := mem_sortByKey.mp x.2
    have h2 := dsize_lt_of_mem (n := x.1.1) (c := x.1.2) (s := o) (by simpa using h1)
    have h3 := dsize_pos s
    have h4 := dsize_emptyS
    omega

/-- The body of `build_comparison_tree` with the termination bookkeeping
(`attach`) removed: the shape all proofs use. -/
theorem build_comparison_tree_def (s o : DirStructure) (m : List (String × String)) :
    build_comparison_tree s o m =
      (match s.files with
       | some fs => classifyFiles fs (if !o.isEmptyD then o.files.getD [] else []) m
       | none => []) ++
      ((sortByKey s.dirs).flatMap (fun y =>
        if y.1 = "_files" then []
        else if !hasKey o y.1 then
          [CTree.dir y.1 Diff.onlyHere
            (build_comparison_tree y.2 (if !o.isEmptyD then lookupD o y.1 else emptyS) m)]
        else
          [CTree.dir y.1 Diff.common
            (build_comparison_tree y.2 (if !o.isEmptyD then lookupD o y.1 else emptyS) m)])) ++
      (if !o.isEmptyD && o.files.isSome then
        onlyThereFiles (o.files.getD []) (s.files.getD []) m
       else []) ++
      (if !o.isEmptyD then
        (sortByKey o.dirs).flatMap (fun y =>
          if y.1 ≠ "_files" ∧ ¬ hasKey s y.1 then
            [CTree.dir y.1 Diff.onlyThere (build_comparison_tree emptyS y.2 m)]
          else [])
       else []) := by
  conv_lhs => rw [build_comparison_tree]
  rw [attach_flatMap (sortByKey s.dirs) (fun y : String × DirStructure =>
      if y.1 = "_files" then []
      else
        let otherContent := if !o.isEmptyD then lookupD o y.1 else emptyS
        let children := build_comparison_tree y.2 otherContent m
        if !hasKey o y.1 then [CTree.dir y.1 Diff.onlyHere children]
        else [CTree.dir y.1 Diff.common children])]
  cases h : o.isEmptyD with
  | true => simp
  | false =>
    rw [attach_flatMap (sortByKey o.dirs) (fun y : String × DirStructure =>
      if y.1 ≠ "_files" ∧ ¬ hasKey s y.1 then
        [CTree.dir y.1 Diff.onlyThere (build_comparison_tree emptyS y.2 m)]
      else [])]

/-! Specification-side path sets.  `allPaths` lists every entry (file or
subdirectory, at any depth) of a structure; `uniquePaths s o` is the spec's
only-here set: the entries of `s` absent from `o` by name at the same
relative path, whole subtrees included once their root is absent. -/

mutual
def allPaths : DirStructure → List EntryPath
  | .mk files dirs =>
    (files.getD []).map (fun f => ([f], EKind.file)) ++ allPathsDirs dirs
def allPathsDirs : List (String × DirStructure) → List EntryPath
  | [] => []
  | (n, c) :: rest =>
    (if n = "_files" then []
     else ([n], EKind.dir) :: (allPaths c).map (fun p => (n :: p.1, p.2))) ++
    allPathsDirs rest
end

theorem allPaths_eq (s : DirStructure) :
    allPaths s =
      (s.files.getD []).map (fun f => ([f], EKind.file)) ++ allPathsDirs s.dirs := by
  cases s with | mk f d => rfl

theorem allPathsDirs_eq_flatMap (l : List (String × DirStructure)) :
    allPathsDirs l = l.flatMap (fun y =>
      if y.1 = "_files" then []
      else ([y.1], EKind.dir) :: (allPaths y.2).map (fun p => (y.1 :: p.1, p.2))) := by
  induction l with
  | nil => rfl
  | cons hd tl ih =>
    cases hd with | mk n c =>
    simp [allPathsDirs, List.flatMap_cons, ih]

def uniquePaths (s o : DirStructure) : List EntryPath :=
  ((s.files.getD []).filter (fun f => !((o.files.getD []).contains f))).map
    (fun f => ([f], EKind.file)) ++
  s.dirs.attach.flatMap (fun x =>
    if x.1.1 = "_files" then []
    else if hasKey o x.1.1 then
      (uniquePaths x.1.2 (lookupD o x.1.1)).map (fun p => (x.1.1 :: p.1, p.2))
    else
      ([x.1.1], EKind.dir) :: (allPaths x.1.2).map (fun p => (x.1.1 :: p.1, p.2)))
termination_by dsize s + dsize o
decreasing_by
  · have h1 : x.1 ∈ s.dirs := x.2
    have h2 := dsize_lt_of_mem (n := x.1.1) (c := x.1.2) (s := s) (by simpa using h1)
    have h3 := dsize_lookupD_le o x.1.1
    omega

theorem uniquePaths_def (s o : DirStructure) :
    uniquePaths s o =
      ((s.files.getD []).filter (fun f => !((o.files.getD []).contains f))).map
        (fun f => ([f], EKind.file)) ++
      s.dirs.flatMap (fun y =>
        if y.1 = "_files" then []
        else if hasKey o y.1 then
          (uniquePaths y.2 (lookupD o y.1)).map (fun p => (y.1 :: p.1, p.2))
        else
          ([y.1], EKind.dir) :: (allPaths y.2).map (fun p => (y.1 :: p.1, p.2))) := by
  conv_lhs => rw [uniquePaths]
  rw [attach_flatMap s.dirs (fun y : String × DirStructure =>
    if y.1 = "_files" then []
    else if hasKey o y.1 then
      (uniquePaths y.2 (lookupD o y.1)).map (fun p => (y.1 :: p.1, p.2))
    else
      ([y.1], EKind.dir) :: (allPaths y.2).map (fun p => (y.1 :: p.1, p.2)))]

/-- Navigation to a relative path, each missing component giving `{}` as
`dict.get(k, {})` would. -/
def navigate : DirStructure → List String → DirStructure
  | s, [] => s
  | s, k :: p => navigate (lookupD s k) p

/-! Bridge facts between the source's Python idioms and the spec sets. -/

theorem files_getD_of_isEmptyD {o : DirStructure} (h : o.isEmptyD = true) :
    o.files.getD [] = [] := by
  cases o with | mk f d =>
  simp only [DirStructure.isEmptyD, DirStructure.files, Bool.and_eq_true,
    Option.isNone_iff_eq_none] at h
  rw [h.1]
  rfl

theorem filesInOther_eq (o : DirStructure) :
    (if !o.isEmptyD then o.files.getD [] else []) = o.files.getD [] := by
  cases h : o.isEmptyD with
  | true => simp [files_getD_of_isEmptyD h]
  | false => simp

theorem hasKey_emptyS (k : String) : hasKey emptyS k = false := by
  simp [hasKey, emptyS, DirStructure.files, DirStructure.dirs]

theorem lookupD_of_not_hasKey {o : DirStructure} {n : String}
    (h : hasKey o n = false) : lookupD o n = emptyS := by
  unfold lookupD
  simp only [hasKey, Bool.or_eq_false_iff] at h
  cases hf : o.dirs.find? (fun p => p.1 == n) with
  | none => rfl
  | some p =>
    have h1 := List.find?_some hf
    have h2 := List.mem_of_find?_eq_some hf
    have h3 : o.dirs.any (fun p => p.1 == n) = true :=
      List.any_eq_true.mpr ⟨p, h2, h1⟩
    rw [h.2] at h3
    cases h3

theorem isEmptyD_false_of_hasKey {o : DirStructure} {n : String}
    (h : hasKey o n = true) : o.isEmptyD = false := by
  cases o with | mk f d =>
  simp only [hasKey, Bool.or_eq_true, Bool.and_eq_true, List.any_eq_true,
    DirStructure.files, DirStructure.dirs] at h
  simp only [DirStructure.isEmptyD, DirStructure.files, DirStructure.dirs]
  cases h with
  | inl h => simp [Option.isSome_iff_exists] at h ⊢; rcases h.2 with ⟨fs, hfs⟩; simp [hfs]
  | inr h =>
    rcases h with ⟨p, hp, _⟩
    cases d with
    | nil => cases hp
    | cons a b => simp [List.isEmpty]

theorem otherContent_of_hasKey {o : DirStructure} {n : String}
    (h : hasKey o n = true) :
    (if !o.isEmptyD then lookupD o n else emptyS) = lookupD o n := by
  rw [isEmptyD_false_of_hasKey h]
  rfl

theorem otherContent_of_not_hasKey {o : DirStructure} {n : String}
    (h : hasKey o n = false) :
    (if !o.isEmptyD then lookupD o n else emptyS) = emptyS := by
  cases he : o.isEmptyD with
  | true => rfl
  | false => simp [lookupD_of_not_hasKey h]

theorem flatMap_congr_mem {α β : Type _} {l : List α} {f g : α → List β}
    (h : ∀ a ∈ l, f a = g a) : l.flatMap f = l.flatMap g := by
  induction l with
  | nil => rfl
  | cons a as ih =>
    simp only [List.flatMap_cons]
    rw [h a (List.mem_cons_self a as), ih (fun x hx => h x (List.mem_cons_of_mem a hx))]

theorem uniquePaths_emptyS_left (o : DirStructure) : uniquePaths emptyS o = [] := by
  rw [uniquePaths_def]
  simp [emptyS, DirStructure.files, DirStructure.dirs]

theorem uniquePaths_emptyS_right (s : DirStructure) :
    uniquePaths s emptyS = allPaths s := by
  rw [uniquePaths_def, allPaths_eq, allPathsDirs_eq_flatMap]
  have hfiles : (emptyS : DirStructure).files.getD [] = [] := rfl
  rw [hfiles]
  have h1 : ((s.files.getD []).filter (fun f => !(([] : List String).contains f)))
      = s.files.getD [] := by
    simp [List.contains]
  rw [h1]
  congr 1
  apply flatMap_congr_mem
  intro a ha
  cases a with | mk n c =>
  by_cases hn : n = "_files"
  · simp [hn]
  · rw [if_neg hn, if_neg hn, if_neg (by simp [hasKey_emptyS])]

/-! Classification content of each pass of `build_comparison_tree`. -/

theorem markedOf_file (d d' : Diff) (n sty : String) :
    markedOf d (CTree.file n sty d') = if d' = d then [([n], EKind.file)] else [] := by
  simp [markedOf]

theorem markedOf_dir (d d' : Diff) (n : String) (cs : List CTree) :
    markedOf d (CTree.dir n d' cs) =
      (if d' = d then [([n], EKind.dir)] else []) ++
        (markedList d cs).map (fun p => (n :: p.1, p.2)) := by
  simp [markedOf]

theorem contains_iff_mem {l : List String} {a : String} :
    l.contains a = true ↔ a ∈ l := List.elem_iff

theorem contains_eq_false {l : List String} {a : String} :
    l.contains a = false ↔ a ∉ l := by
  rw [← contains_iff_mem]
  cases h : l.contains a <;> simp

theorem markedH_classifyFiles (fs fio : List String) (m : List (String × String))
    (p : EntryPath) :
    p ∈ markedList Diff.onlyHere (classifyFiles fs fio m) ↔
      ∃ f ∈ fs, f ∉ fio ∧ p = ([f], EKind.file) := by
  simp only [classifyFiles, markedList_map, List.mem_flatMap, mem_sort_files_by_type]
  constructor
  · rintro ⟨f, hf, hp⟩
    by_cases hm : f ∈ fio
    · simp [hm, markedOf] at hp
    · simp [hm, markedOf] at hp
      exact ⟨f, hf, hm, hp⟩
  · rintro ⟨f, hf, hm, hp⟩
    refine ⟨f, hf, ?_⟩
    simp [hm, markedOf, hp]

theorem markedC_classifyFiles (fs fio : List String) (m : List (String × String))
    (p : EntryPath) :
    p ∈ markedList Diff.common (classifyFiles fs fio m) ↔
      ∃ f ∈ fs, f ∈ fio ∧ p = ([f], EKind.file) := by
  simp only [classifyFiles, markedList_map, List.mem_flatMap, mem_sort_files_by_type]
  constructor
  · rintro ⟨f, hf, hp⟩
    by_cases hm : f ∈ fio
    · simp [hm, markedOf] at hp
      exact ⟨f, hf, hm, hp⟩
    · simp [hm, markedOf] at hp
  · rintro ⟨f, hf, hm, hp⟩
    refine ⟨f, hf, ?_⟩
    simp [hm, markedOf, hp]

theorem markedT_classifyFiles (fs fio : List String) (m : List (String × String)) :
    markedList Diff.onlyThere (classifyFiles fs fio m) = [] := by
  rw [List.eq_nil_iff_forall_not_mem]
  intro p hp
  simp only [classifyFiles, markedList_map, List.mem_flatMap] at hp
  rcases hp with ⟨f, _, hp⟩
  by_cases hm : f ∈ fio
  · simp [hm, markedOf] at hp
  · simp [hm, markedOf] at hp

theorem markedT_onlyThereFiles (fs ft : List String) (m : List (String × String))
    (p : EntryPath) :
    p ∈ markedList Diff.onlyThere (onlyThereFiles fs ft m) ↔
      ∃ f ∈ fs, f ∉ ft ∧ p = ([f], EKind.file) := by
  simp only [onlyThereFiles, markedList_flatMap, List.mem_flatMap,
    mem_sort_files_by_type]
  constructor
  · rintro ⟨f, hf, hp⟩
    by_cases hm : f ∈ ft
    · simp [hm, markedList] at hp
    · simp [hm, markedList, markedOf] at hp
      exact ⟨f, hf, hm, hp⟩
  · rintro ⟨f, hf, hm, hp⟩
    refine ⟨f, hf, ?_⟩
    simp [hm, markedList, markedOf, hp]

theorem markedH_onlyThereFiles (fs ft : List String) (m : List (String × String)) :
    markedList Diff.onlyHere (onlyThereFiles fs ft m) = [] := by
  rw [List.eq_nil_iff_forall_not_mem]
  intro p hp
  simp only [onlyThereFiles, markedList_flatMap, List.mem_flatMap] at hp
  rcases hp with ⟨f, _, hp⟩
  by_cases hm : f ∈ ft
  · simp [hm, markedList] at hp
  · simp [hm, markedList, markedOf] at hp

theorem markedC_onlyThereFiles (fs ft : List String) (m : List (String × String)) :
    markedList Diff.common (onlyThereFiles fs ft m) = [] := by
  rw [List.eq_nil_iff_forall_not_mem]
  intro p hp
  simp only [onlyThereFiles, markedList_flatMap, List.mem_flatMap] at hp
  rcases hp with ⟨f, _, hp⟩
  by_cases hm : f ∈ ft
  · simp [hm, markedList] at hp
  · simp [hm, markedList, markedOf] at hp

/-- What `build_comparison_tree s o` highlights green is exactly the
spec's only-here set `uniquePaths s o`. -/
theorem marked_onlyHere_build :
    ∀ k s o m, dsize s + dsize o ≤ k → ∀ p : EntryPath,
      (p ∈ markedList Diff.onlyHere (build_comparison_tree s o m) ↔
        p ∈ uniquePaths s o) := by
  intro k
  induction k with
  | zero =>
    intro s o m h
    have h1 := dsize_pos s
    have h2 := dsize_pos o
    omega
  | succ k ih =>
    intro s o m hk p
    rw [build_comparison_tree_def, uniquePaths_def, markedList_append,
      markedList_append, markedList_append]
    have hpass3 : markedList Diff.onlyHere
        (if !o.isEmptyD && o.files.isSome then
          onlyThereFiles (o.files.getD []) (s.files.getD []) m else []) = [] := by
      split
      · exact markedH_onlyThereFiles _ _ _
      · rfl
    have hpass4 : markedList Diff.onlyHere
        (if !o.isEmptyD then
          (sortByKey o.dirs).flatMap (fun y =>
            if y.1 ≠ "_files" ∧ ¬ hasKey s y.1 then
              [CTree.dir y.1 Diff.onlyThere (build_comparison_tree emptyS y.2 m)]
            else []) else []) = [] := by
      split
      · rw [markedList_flatMap, List.eq_nil_iff_forall_not_mem]
        intro q hq
        simp only [List.mem_flatMap] at hq
        rcases hq with ⟨y, hy, hq⟩
        have hy' : y ∈ o.dirs := mem_sortByKey.mp hy
        have hsz := dsize_lt_of_mem (n := y.1) (c := y.2) (s := o) (by simpa using hy')
        have hs1 := dsize_pos s
        split at hq
        · simp only [markedList, markedOf_dir, List.append_nil,
            List.singleton_append] at hq
          rw [if_neg (by decide : ¬ (Diff.onlyThere = Diff.onlyHere))] at hq
          simp only [List.nil_append, List.mem_map] at hq
          rcases hq with ⟨r, hr, _⟩
          have hb : dsize emptyS + dsize y.2 ≤ k := by
            rw [dsize_emptyS]; omega
          have := (ih emptyS y.2 m hb r).mp hr
          rw [uniquePaths_emptyS_left] at this
          cases this
        · simp [markedList] at hq
      · rfl
    rw [hpass3, hpass4]
    have hdir : ∀ y ∈ s.dirs, ∀ q : EntryPath,
        q ∈ markedList Diff.onlyHere
          (if y.1 = "_files" then []
           else if !hasKey o y.1 then
             [CTree.dir y.1 Diff.onlyHere
               (build_comparison_tree y.2
                 (if !o.isEmptyD then lookupD o y.1 else emptyS) m)]
           else
             [CTree.dir y.1 Diff.common
               (build_comparison_tree y.2
                 (if !o.isEmptyD then lookupD o y.1 else emptyS) m)]) ↔
        q ∈ (if y.1 = "_files" then []
             else if hasKey o y.1 then
               (uniquePaths y.2 (lookupD o y.1)).map (fun r => (y.1 :: r.1, r.2))
             else
               ([y.1], EKind.dir) :: (allPaths y.2).map (fun r => (y.1 :: r.1, r.2))) := by
      intro y hy q
      have hsz := dsize_lt_of_mem (n := y.1) (c := y.2) (s := s) (by simpa using hy)
      by_cases hfn : y.1 = "_files"
      · simp [hfn, markedList]
      · rw [if_neg hfn, if_neg hfn]
        by_cases hK : hasKey o y.1 = true
        · rw [if_pos hK, otherContent_of_hasKey hK,
            if_neg (show ¬ ((!hasKey o y.1) = true) by simp [hK])]
          simp only [markedList, markedOf_dir, List.append_nil]
          rw [if_neg (by decide : ¬ (Diff.common = Diff.onlyHere))]
          simp only [List.nil_append, List.mem_map]
          have hb : dsize y.2 + dsize (lookupD o y.1) ≤ k := by
            have := dsize_lookupD_le o y.1
            omega
          constructor
          · rintro ⟨r, hr, hq⟩
            exact ⟨r, (ih y.2 (lookupD o y.1) m hb r).mp hr, hq⟩
          · rintro ⟨r, hr, hq⟩
            exact ⟨r, (ih y.2 (lookupD o y.1) m hb r).mpr hr, hq⟩
        · have hKf : hasKey o y.1 = false := by simpa using hK
          rw [if_neg hK, otherContent_of_not_hasKey hKf,
            if_pos (show (!hasKey o y.1) = true by simp [hKf])]
          simp only [markedList, markedOf_dir, List.append_nil]
          simp only [if_pos trivial, List.singleton_append, List.mem_cons, List.mem_map]
          have hb : dsize y.2 + dsize emptyS ≤ k := by
            rw [dsize_emptyS]
            have := dsize_pos o
            omega
          constructor
          · rintro (hq | ⟨r, hr, hq⟩)
            · exact Or.inl hq
            · refine Or.inr ⟨r, ?_, hq⟩
              have := (ih y.2 emptyS m hb r).mp hr
              rwa [uniquePaths_emptyS_right] at this
          · rintro (hq | ⟨r, hr, hq⟩)
            · exact Or.inl hq
            · refine Or.inr ⟨r, ?_, hq⟩
              apply (ih y.2 emptyS m hb r).mpr
              rwa [uniquePaths_emptyS_right]
    simp only [List.append_nil, List.mem_append]
    apply or_congr
    · cases hf : s.files with
      | none =>
        simp [markedList, DirStructure.files]
      | some fs =>
        rw [filesInOther_eq o, markedH_classifyFiles]
        simp only [Option.getD_some, List.mem_map, List.mem_filter]
        constructor
        · rintro ⟨f, hf2, hm, hp⟩
          exact ⟨f, ⟨hf2, by simpa [contains_eq_false] using hm⟩, hp.symm⟩
        · rintro ⟨f, ⟨hf2, hm⟩, hp⟩
          exact ⟨f, hf2, by simpa [contains_eq_false] using hm, hp.symm⟩
    · rw [markedList_flatMap]
      simp only [List.mem_flatMap]
      constructor
      · rintro ⟨y, hy, hp⟩
        have hy' := mem_sortByKey.mp hy
        exact ⟨y, hy', (hdir y hy' p).mp hp⟩
      · rintro ⟨y, hy', hp⟩
        exact ⟨y, mem_sortByKey.mpr hy', (hdir y hy' p).mpr hp⟩

/-! Dict-key facts used to match the two walks of a pair of structures. -/

theorem keysNodup_of_WF {s : DirStructure} (hs : WF s = true) :
    keysNodup s.dirs = true := by
  cases s with | mk f d =>
  simp only [WF, Bool.and_eq_true] at hs
  exact hs.1.2

theorem filesNodup_of_WF {s : DirStructure} (hs : WF s = true) :
    namesNodup (s.files.getD []) = true := by
  cases s with | mk f d =>
  simp only [WF, Bool.and_eq_true] at hs
  exact hs.1.1

theorem keyAbsent_not_mem {n : String} {l : List (String × DirStructure)}
    (h : keyAbsent n l = true) : ∀ c, (n, c) ∉ l := by
  induction l with
  | nil => intro c hc; cases hc
  | cons hd tl ih =>
    cases hd with | mk k v =>
    simp only [keyAbsent, Bool.and_eq_true] at h
    intro c hc
    cases hc with
    | head =>
      have := h.1
      simp at this
    | tail _ hc => exact ih h.2 c hc

theorem lookupD_eq_of_mem {o : DirStructure} {n : String} {c : DirStructure}
    (hnd : keysNodup o.dirs = true) (h : (n, c) ∈ o.dirs) : lookupD o n = c := by
  cases o with | mk f d =>
  simp only [DirStructure.dirs] at hnd h ⊢
  unfold lookupD
  simp only [DirStructure.dirs]
  induction d with
  | nil => cases h
  | cons hd tl ih =>
    cases hd with | mk k v =>
    simp only [keysNodup, Bool.and_eq_true] at hnd
    cases h with
    | head =>
      simp [List.find?]
    | tail _ h =>
      have hk : (k == n) = false := by
        by_cases he : k = n
        · subst he
          exact absurd h (keyAbsent_not_mem hnd.1 c)
        · simp [he]
      simp only [List.find?, hk]
      exact ih hnd.2 h

theorem hasKey_of_mem {o : DirStructure} {n : String} {c : DirStructure}
    (h : (n, c) ∈ o.dirs) : hasKey o n = true := by
  simp only [hasKey, Bool.or_eq_true, List.any_eq_true]
  exact Or.inr ⟨(n, c), h, by simp⟩

theorem lookupD_mem {o : DirStructure} {n : String}
    (hK : hasKey o n = true) (hn : n ≠ "_files") : (n, lookupD o n) ∈ o.dirs := by
  simp only [hasKey, Bool.or_eq_true, Bool.and_eq_true, List.any_eq_true] at hK
  have hany : ∃ p ∈ o.dirs, (p.1 == n) = true := by
    cases hK with
    | inl h =>
      exact absurd (eq_of_beq h.1) hn
    | inr h => exact h
  unfold lookupD
  cases hf : o.dirs.find? (fun p => p.1 == n) with
  | none =>
    rcases hany with ⟨p, hp, hpn⟩
    rw [List.find?_eq_none] at hf
    exact absurd hpn (by simpa using hf p hp)
  | some p =>
    have h1 := List.find?_some hf
    have h2 := List.mem_of_find?_eq_some hf
    cases p with | mk k v =>
    have : k = n := by simpa using h1
    subst this
    exact h2

theorem isEmptyD_false_of_mem_dirs {o : DirStructure} {n : String}
    {c : DirStructure} (h : (n, c) ∈ o.dirs) : o.isEmptyD = false := by
  cases o with | mk f d =>
  simp only [DirStructure.dirs] at h
  cases d with
  | nil => cases h
  | cons a b => simp [DirStructure.isEmptyD, DirStructure.dirs, List.isEmpty]

theorem isEmptyD_false_of_files_some {o : DirStructure} {fs : List String}
    (h : o.files = some fs) : o.isEmptyD = false := by
  cases o with | mk f d =>
  simp only [DirStructure.files] at h
  subst h
  simp [DirStructure.isEmptyD, DirStructure.files]

theorem markedOf_dir_self (d : Diff) (n : String) (cs : List CTree) :
    markedOf d (CTree.dir n d cs) =
      ([n], EKind.dir) :: (markedList d cs).map (fun p => (n :: p.1, p.2)) := by
  simp [markedOf]

theorem markedOf_dir_ne {d d' : Diff} (n : String) (cs : List CTree) (h : d' ≠ d) :
    markedOf d (CTree.dir n d' cs) =
      (markedList d cs).map (fun p => (n :: p.1, p.2)) := by
  simp [markedOf, h]

theorem dirs_nil_of_isEmptyD {o : DirStructure} (h : o.isEmptyD = true) :
    o.dirs = [] := by
  cases o with | mk f d =>
  simp only [DirStructure.isEmptyD, Bool.and_eq_true, DirStructure.dirs] at h ⊢
  simpa using h.2

/-- What `build_comparison_tree s o` highlights red is exactly the spec's
only-here set of the opposite side, `uniquePaths o s`. -/
theorem marked_onlyThere_build :
    ∀ k s o m, WF s = true → WF o = true → dsize s + dsize o ≤ k → ∀ p : EntryPath,
      (p ∈ markedList Diff.onlyThere (build_comparison_tree s o m) ↔
        p ∈ uniquePaths o s) := by
  intro k
  induction k with
  | zero =>
    intro s o m _ _ h
    have h1 := dsize_pos s
    have h2 := dsize_pos o
    omega
  | succ k ih =>
    intro s o m hWs hWo hk p
    have hnds := keysNodup_of_WF hWs
    have hndo := keysNodup_of_WF hWo
    rw [build_comparison_tree_def, uniquePaths_def, markedList_append,
      markedList_append, markedList_append]
    have hpass1 : markedList Diff.onlyThere
        (match s.files with
         | some fs => classifyFiles fs (if !o.isEmptyD then o.files.getD [] else []) m
         | none => []) = [] := by
      cases s.files with
      | none => rfl
      | some fs => exact markedT_classifyFiles _ _ _
    have hpass3 : ∀ q : EntryPath, q ∈ markedList Diff.onlyThere
        (if !o.isEmptyD && o.files.isSome then
          onlyThereFiles (o.files.getD []) (s.files.getD []) m else []) ↔
        q ∈ ((o.files.getD []).filter
            (fun f => !((s.files.getD []).contains f))).map
          (fun f => ([f], EKind.file)) := by
      intro q
      cases hof : o.files with
      | none => simp [markedList]
      | some fs =>
        have hoe := isEmptyD_false_of_files_some hof
        simp only [hoe, Option.isSome_some, Bool.not_false, Bool.and_self, if_true,
          Option.getD_some]
        rw [markedT_onlyThereFiles]
        simp only [List.mem_map, List.mem_filter]
        constructor
        · rintro ⟨f, hf, hm, hp⟩
          exact ⟨f, ⟨hf, by simpa [contains_eq_false] using hm⟩, hp.symm⟩
        · rintro ⟨f, ⟨hf, hm⟩, hp⟩
          exact ⟨f, hf, by simpa [contains_eq_false] using hm, hp.symm⟩
    have hdirB : ∀ y ∈ s.dirs, ∀ q : EntryPath,
        q ∈ markedList Diff.onlyThere
          (if y.1 = "_files" then []
           else if !hasKey o y.1 then
             [CTree.dir y.1 Diff.onlyHere
               (build_comparison_tree y.2
                 (if !o.isEmptyD then lookupD o y.1 else emptyS) m)]
           else
             [CTree.dir y.1 Diff.common
               (build_comparison_tree y.2
                 (if !o.isEmptyD then lookupD o y.1 else emptyS) m)]) ↔
        (y.1 ≠ "_files" ∧ hasKey o y.1 = true ∧
          ∃ r ∈ uniquePaths (lookupD o y.1) y.2, q = (y.1 :: r.1, r.2)) := by
      intro y hy q
      have hszy := dsize_lt_of_mem (n := y.1) (c := y.2) (s := s) (by simpa using hy)
      have hWy := WF_of_mem_dirs hWs (by simpa using hy)
      by_cases hfn : y.1 = "_files"
      · constructor
        · intro hq
          rw [if_pos hfn] at hq
          simp [markedList] at hq
        · rintro ⟨h1, _, _⟩
          exact absurd hfn h1
      · rw [if_neg hfn]
        by_cases hK : hasKey o y.1 = true
        · rw [if_neg (show ¬ ((!hasKey o y.1) = true) by simp [hK]),
            otherContent_of_hasKey hK]
          simp only [markedList, List.append_nil]
          rw [markedOf_dir_ne _ _ (by decide : Diff.common ≠ Diff.onlyThere)]
          simp only [List.mem_map]
          have hb : dsize y.2 + dsize (lookupD o y.1) ≤ k := by
            have := dsize_lookupD_le o y.1
            omega
          constructor
          · rintro ⟨r, hr, hq⟩
            exact ⟨hfn, hK, r,
              (ih y.2 (lookupD o y.1) m hWy (WF_lookupD hWo y.1) hb r).mp hr, hq.symm⟩
          · rintro ⟨_, _, r, hr, hq⟩
            exact ⟨r, (ih y.2 (lookupD o y.1) m hWy (WF_lookupD hWo y.1) hb r).mpr hr,
              hq.symm⟩
        · have hKf : hasKey o y.1 = false := by simpa using hK
          rw [if_pos (show (!hasKey o y.1) = true by simp [hKf]),
            otherContent_of_not_hasKey hKf]
          simp only [markedList, List.append_nil]
          rw [markedOf_dir_ne _ _ (by decide : Diff.onlyHere ≠ Diff.onlyThere)]
          simp only [List.mem_map]
          have hb : dsize y.2 + dsize emptyS ≤ k := by
            rw [dsize_emptyS]
            have := dsize_pos o
            omega
          constructor
          · rintro ⟨r, hr, _⟩
            have := (ih y.2 emptyS m hWy WF_emptyS hb r).mp hr
            rw [uniquePaths_emptyS_left] at this
            cases this
          · rintro ⟨_, hKt, _⟩
            rw [hKf] at hKt
            cases hKt
    have hdir4 : ∀ y ∈ o.dirs, ∀ q : EntryPath,
        q ∈ markedList Diff.onlyThere
          (if y.1 ≠ "_files" ∧ ¬ hasKey s y.1 then
            [CTree.dir y.1 Diff.onlyThere (build_comparison_tree emptyS y.2 m)]
          else []) ↔
        (y.1 ≠ "_files" ∧ hasKey s y.1 = false ∧
          (q = ([y.1], EKind.dir) ∨ ∃ r ∈ allPaths y.2, q = (y.1 :: r.1, r.2))) := by
      intro y hy q
      have hszy := dsize_lt_of_mem (n := y.1) (c := y.2) (s := o) (by simpa using hy)
      have hWy := WF_of_mem_dirs hWo (by simpa using hy)
      by_cases hc : y.1 ≠ "_files" ∧ ¬ hasKey s y.1 = true
      · rw [if_pos hc]
        simp only [markedList, List.append_nil]
        rw [markedOf_dir_self]
        simp only [List.mem_cons, List.mem_map]
        have hb : dsize emptyS + dsize y.2 ≤ k := by
          rw [dsize_emptyS]
          have := dsize_pos s
          omega
        have hmk : ∀ r : EntryPath,
            (r ∈ markedList Diff.onlyThere (build_comparison_tree emptyS y.2 m) ↔
              r ∈ allPaths y.2) := by
          intro r
          rw [ih emptyS y.2 m WF_emptyS hWy hb r, uniquePaths_emptyS_right]
        constructor
        · rintro (hq | ⟨r, hr, hq⟩)
          · exact ⟨hc.1, by simpa using hc.2, Or.inl hq⟩
          · exact ⟨hc.1, by simpa using hc.2, Or.inr ⟨r, (hmk r).mp hr, hq.symm⟩⟩
        · rintro ⟨h1, h2, (hq | ⟨r, hr, hq⟩)⟩
          · exact Or.inl hq
          · exact Or.inr ⟨r, (hmk r).mpr hr, hq.symm⟩
      · rw [if_neg hc]
        simp only [markedList, List.not_mem_nil, false_iff]
        rintro ⟨h1, h2, _⟩
        exact hc ⟨h1, by simp [h2]⟩
    rw [hpass1]
    simp only [List.nil_append, List.mem_append, or_assoc]
    constructor
    · rintro (hp | hp | hp)
      · -- pass2: a common subdirectory's subtree
        rw [markedList_flatMap] at hp
        simp only [List.mem_flatMap] at hp
        rcases hp with ⟨y, hy, hp⟩
        have hy' := mem_sortByKey.mp hy
        rcases (hdirB y hy' p).mp hp with ⟨hfn, hK, r, hr, hq⟩
        refine Or.inr ?_
        simp only [List.mem_flatMap]
        refine ⟨(y.1, lookupD o y.1), lookupD_mem hK hfn, ?_⟩
        rw [if_neg hfn, if_pos (hasKey_of_mem (by simpa using hy'))]
        simp only [List.mem_map]
        rw [lookupD_eq_of_mem hnds (by simpa using hy')]
        exact ⟨r, hr, hq.symm⟩
      · -- pass3: files only in the sibling
        exact Or.inl ((hpass3 p).mp hp)
      · -- pass4: subdirectories only in the sibling
        rcases (show (!o.isEmptyD) = true ∨ o.isEmptyD = true by
          cases o.isEmptyD <;> simp) with hoe | hoe
        · rw [if_pos hoe, markedList_flatMap] at hp
          simp only [List.mem_flatMap] at hp
          rcases hp with ⟨y, hy, hp⟩
          have hy' := mem_sortByKey.mp hy
          rcases (hdir4 y hy' p).mp hp with ⟨hfn, hKs, hor⟩
          refine Or.inr ?_
          simp only [List.mem_flatMap]
          refine ⟨y, hy', ?_⟩
          rw [if_neg hfn, if_neg (by simp [hKs])]
          simp only [List.mem_cons, List.mem_map]
          rcases hor with hq | ⟨r, hr, hq⟩
          · exact Or.inl hq
          · exact Or.inr ⟨r, hr, hq.symm⟩
        · rw [if_neg (by simp [hoe])] at hp
          simp [markedList] at hp
    · intro hp
      rcases hp with hp | hp
      · exact Or.inr (Or.inl ((hpass3 p).mpr hp))
      · simp only [List.mem_flatMap] at hp
        rcases hp with ⟨y, hy, hp⟩
        by_cases hfn : y.1 = "_files"
        · rw [if_pos hfn] at hp
          cases hp
        · rw [if_neg hfn] at hp
          by_cases hKs : hasKey s y.1 = true
          · -- comes from pass2 through the matching subdirectory of s
            rw [if_pos hKs] at hp
            simp only [List.mem_map] at hp
            rcases hp with ⟨r, hr, hq⟩
            refine Or.inl ?_
            rw [markedList_flatMap]
            simp only [List.mem_flatMap]
            refine ⟨(y.1, lookupD s y.1), mem_sortByKey.mpr (lookupD_mem hKs hfn), ?_⟩
            apply (hdirB (y.1, lookupD s y.1) (lookupD_mem hKs hfn) p).mpr
            refine ⟨hfn, hasKey_of_mem (by simpa using hy), r, ?_, hq.symm⟩
            rw [lookupD_eq_of_mem hndo (by simpa using hy)]
            exact hr
          · -- comes from pass4
            have hKsf : hasKey s y.1 = false := by simpa using hKs
            rw [if_neg hKs] at hp
            simp only [List.mem_cons, List.mem_map] at hp
            refine Or.inr (Or.inr ?_)
            have hoe : (!o.isEmptyD) = true := by
              simp [isEmptyD_false_of_mem_dirs (n := y.1) (c := y.2) (o := o)
                (by simpa using hy)]
            rw [if_pos hoe, markedList_flatMap]
            simp only [List.mem_flatMap]
            refine ⟨y, mem_sortByKey.mpr hy, ?_⟩
            apply (hdir4 y hy p).mpr
            rcases hp with hq | ⟨r, hr, hq⟩
            · exact ⟨hfn, hKsf, Or.inl hq⟩
            · exact ⟨hfn, hKsf, Or.inr ⟨r, hr, hq.symm⟩⟩

theorem allPaths_head_ne_nil {s : DirStructure} {p : EntryPath}
    (h : p ∈ allPaths s) : p.1 ≠ [] := by
  rw [allPaths_eq, allPathsDirs_eq_flatMap] at h
  simp only [List.mem_append, List.mem_map, List.mem_flatMap] at h
  rcases h with ⟨f, _, hp⟩ | ⟨y, _, hp⟩
  · rw [← hp]
    simp
  · split at hp
    · cases hp
    · rcases List.mem_cons.mp hp with hq | hq
      · rw [hq]
        simp
      · simp only [List.mem_map] at hq
        rcases hq with ⟨r, _, hq⟩
        rw [← hq]
        simp

theorem mem_uniquePaths_iff {s o : DirStructure} {p : EntryPath} :
    p ∈ uniquePaths s o ↔
      (∃ f, f ∈ s.files.getD [] ∧ f ∉ o.files.getD [] ∧ p = ([f], EKind.file)) ∨
      (∃ y, y ∈ s.dirs ∧ y.1 ≠ "_files" ∧
        ((hasKey o y.1 = true ∧
          ∃ r, r ∈ uniquePaths y.2 (lookupD o y.1) ∧ p = (y.1 :: r.1, r.2)) ∨
         (hasKey o y.1 = false ∧
          (p = ([y.1], EKind.dir) ∨
            ∃ r, r ∈ allPaths y.2 ∧ p = (y.1 :: r.1, r.2))))) := by
  rw [uniquePaths_def]
  simp only [List.mem_append, List.mem_map, List.mem_filter, List.mem_flatMap]
  apply or_congr
  · constructor
    · rintro ⟨f, ⟨hf, hc⟩, hp⟩
      exact ⟨f, hf, by simpa [contains_eq_false] using hc, hp.symm⟩
    · rintro ⟨f, hf, hc, hp⟩
      exact ⟨f, ⟨hf, by simpa [contains_eq_false] using hc⟩, hp.symm⟩
  · constructor
    · rintro ⟨y, hy, hp⟩
      by_cases hfn : y.1 = "_files"
      · rw [if_pos hfn] at hp
        cases hp
      · rw [if_neg hfn] at hp
        refine ⟨y, hy, hfn, ?_⟩
        by_cases hK : hasKey o y.1 = true
        · rw [if_pos hK] at hp
          simp only [List.mem_map] at hp
          rcases hp with ⟨r, hr, hp⟩
          exact Or.inl ⟨hK, r, hr, hp.symm⟩
        · have hKf : hasKey o y.1 = false := by simpa using hK
          rw [if_neg hK] at hp
          rcases List.mem_cons.mp hp with hq | hq
          · exact Or.inr ⟨hKf, Or.inl hq⟩
          · simp only [List.mem_map] at hq
            rcases hq with ⟨r, hr, hq⟩
            exact Or.inr ⟨hKf, Or.inr ⟨r, hr, hq.symm⟩⟩
    · rintro ⟨y, hy, hfn, hbr⟩
      refine ⟨y, hy, ?_⟩
      rw [if_neg hfn]
      rcases hbr with ⟨hK, r, hr, hp⟩ | ⟨hKf, hor⟩
      · rw [if_pos hK]
        simp only [List.mem_map]
        exact ⟨r, hr, hp.symm⟩
      · rw [if_neg (by simp [hKf])]
        rcases hor with hq | ⟨r, hr, hq⟩
        · exact List.mem_cons.mpr (Or.inl hq)
        · exact List.mem_cons.mpr (Or.inr (by
            simp only [List.mem_map]
            exact ⟨r, hr, hq.symm⟩))

theorem uniquePaths_head_ne_nil {s o : DirStructure} {p : EntryPath}
    (h : p ∈ uniquePaths s o) : p.1 ≠ [] := by
  rcases mem_uniquePaths_iff.mp h with ⟨f, _, _, hp⟩ | ⟨y, _, _, hbr⟩
  · rw [hp]
    simp
  · rcases hbr with ⟨_, r, _, hp⟩ | ⟨_, hq | ⟨r, _, hq⟩⟩
    · rw [hp]
      simp
    · rw [hq]
      simp
    · rw [hq]
      simp

/-- The two only-here sets of a well-formed pair never share an entry. -/
theorem uniquePaths_disjoint :
    ∀ k s o, WF s = true → WF o = true → dsize s + dsize o ≤ k →
      ∀ p : EntryPath, p ∈ uniquePaths s o → p ∉ uniquePaths o s := by
  intro k
  induction k with
  | zero =>
    intro s o _ _ h
    have h1 := dsize_pos s
    have h2 := dsize_pos o
    omega
  | succ k ih =>
    intro s o hWs hWo hk p hps hpo
    have hnds := keysNodup_of_WF hWs
    have hndo := keysNodup_of_WF hWo
    rcases mem_uniquePaths_iff.mp hps with ⟨f, hfs, hfo, hpf⟩ | ⟨y, hy, hyn, hybr⟩
    · -- p is a file of s missing from o
      rcases mem_uniquePaths_iff.mp hpo with ⟨g, hgo, hgs, hpg⟩ | ⟨z, hz, hzn, hzbr⟩
      · rw [hpf] at hpg
        have hfg : f = g := by simpa using congrArg Prod.fst hpg
        subst hfg
        exact hfo hgo
      · rcases hzbr with ⟨_, r, hr, hp⟩ | ⟨_, hq | ⟨r, hr, hq⟩⟩
        · rw [hpf] at hp
          have := congrArg Prod.fst hp
          simp at this
          exact uniquePaths_head_ne_nil hr this.2
        · rw [hpf] at hq
          have := congrArg Prod.snd hq
          simp at this
        · rw [hpf] at hq
          have := congrArg Prod.fst hq
          simp at this
          exact allPaths_head_ne_nil hr this.2
    · -- p sits below a subdirectory entry y of s
      have hKys : hasKey s y.1 = true := hasKey_of_mem (by simpa using hy)
      rcases mem_uniquePaths_iff.mp hpo with ⟨g, hgo, hgs, hpg⟩ | ⟨z, hz, hzn, hzbr⟩
      · rcases hybr with ⟨_, r, hr, hp⟩ | ⟨_, hq | ⟨r, hr, hq⟩⟩
        · rw [hpg] at hp
          have := congrArg Prod.fst hp
          simp at this
          exact uniquePaths_head_ne_nil hr this.2
        · rw [hpg] at hq
          have := congrArg Prod.snd hq
          simp at this
        · rw [hpg] at hq
          have := congrArg Prod.fst hq
          simp at this
          exact allPaths_head_ne_nil hr this.2
      · have hKzo : hasKey o z.1 = true := hasKey_of_mem (by simpa using hz)
        rcases hybr with ⟨hKy, r, hr, hp⟩ | ⟨hKyf, hyor⟩
        · rcases hzbr with ⟨hKz, r', hr', hp'⟩ | ⟨hKzf, hzor⟩
          · -- common on both sides: the recursive case
            rw [hp] at hp'
            have hcomp : (y.1 = z.1 ∧ r.1 = r'.1) ∧ r.2 = r'.2 := by
              simpa using hp'
            have hzy : z.1 = y.1 := hcomp.1.1.symm
            have hrr : r' = r := Prod.ext_iff.mpr ⟨hcomp.1.2.symm, hcomp.2.symm⟩
            subst hrr
            have hlz : lookupD o y.1 = z.2 := by
              rw [← hzy]
              exact lookupD_eq_of_mem hndo (by simpa using hz)
            have hls : lookupD s z.1 = y.2 := by
              rw [hzy]
              exact lookupD_eq_of_mem hnds (by simpa using hy)
            have hWy := WF_of_mem_dirs hWs (by simpa using hy)
            have hWz := WF_of_mem_dirs hWo (by simpa using hz)
            have hszy := dsize_lt_of_mem (n := y.1) (c := y.2) (s := s) (by simpa using hy)
            have hszz := dsize_lt_of_mem (n := z.1) (c := z.2) (s := o) (by simpa using hz)
            rw [hlz] at hr
            rw [hls] at hr'
            exact ih y.2 z.2 hWy hWz (by omega) r' hr hr'
          · rcases hzor with hq | ⟨r', hr', hq⟩
            · rw [hp] at hq
              have := congrArg Prod.fst hq
              simp at this
              exact uniquePaths_head_ne_nil hr this.2
            · rw [hp] at hq
              have := congrArg Prod.fst hq
              simp at this
              rw [← this.1, hKys] at hKzf
              cases hKzf
        · rcases hzbr with ⟨hKz, r', hr', hp'⟩ | ⟨hKzf, hzor⟩
          · rcases hyor with hq | ⟨r, hr, hq⟩
            · rw [hp'] at hq
              have := congrArg Prod.fst hq
              simp at this
              exact uniquePaths_head_ne_nil hr' this.2
            · rw [hq] at hp'
              have := congrArg Prod.fst hp'
              simp at this
              rw [this.1, hKzo] at hKyf
              cases hKyf
          · rcases hyor with hq | ⟨r, hr, hq⟩ <;> rcases hzor with hq' | ⟨r', hr', hq'⟩
            · rw [hq] at hq'
              have : y.1 = z.1 := by simpa using congrArg Prod.fst hq'
              rw [← this, hKys] at hKzf
              cases hKzf
            · rw [hq] at hq'
              have := congrArg Prod.fst hq'
              simp at this
              exact allPaths_head_ne_nil hr' this.2
            · rw [hq'] at hq
              have := congrArg Prod.fst hq
              simp at this
              exact allPaths_head_ne_nil hr this.2
            · rw [hq] at hq'
              have := congrArg Prod.fst hq'
              simp at this
              rw [← this.1, hKys] at hKzf
              cases hKzf

theorem isEmptyD_emptyS : (emptyS : DirStructure).isEmptyD = true := rfl

/-- Against an empty sibling, the renderer marks nothing common and
nothing only-there. -/
theorem marked_not_onlyHere_build_emptyS :
    ∀ k s m d, d ≠ Diff.onlyHere → dsize s ≤ k →
      markedList d (build_comparison_tree s emptyS m) = [] := by
  intro k
  induction k with
  | zero =>
    intro s m d _ h
    have := dsize_pos s
    omega
  | succ k ih =>
    intro s m d hd hk
    rw [build_comparison_tree_def, markedList_append, markedList_append,
      markedList_append]
    have h1 : markedList d
        (match s.files with
         | some fs => classifyFiles fs
             (if !(emptyS : DirStructure).isEmptyD then
               (emptyS : DirStructure).files.getD [] else []) m
         | none => []) = [] := by
      cases s.files with
      | none => rfl
      | some fs =>
        cases d with
        | onlyHere => exact absurd rfl hd
        | onlyThere => exact markedT_classifyFiles _ _ _
        | common =>
          rw [List.eq_nil_iff_forall_not_mem]
          intro p hp
          rcases (markedC_classifyFiles _ _ _ _).mp hp with ⟨f, _, hmem, _⟩
          simp [isEmptyD_emptyS] at hmem
    have h2 : markedList d ((sortByKey s.dirs).flatMap (fun y =>
        if y.1 = "_files" then []
        else if !hasKey emptyS y.1 then
          [CTree.dir y.1 Diff.onlyHere
            (build_comparison_tree y.2
              (if !(emptyS : DirStructure).isEmptyD then lookupD emptyS y.1
               else emptyS) m)]
        else
          [CTree.dir y.1 Diff.common
            (build_comparison_tree y.2
              (if !(emptyS : DirStructure).isEmptyD then lookupD emptyS y.1
               else emptyS) m)])) = [] := by
      rw [markedList_flatMap, List.eq_nil_iff_forall_not_mem]
      intro p hp
      simp only [List.mem_flatMap] at hp
      rcases hp with ⟨y, hy, hp⟩
      have hy' := mem_sortByKey.mp hy
      by_cases hfn : y.1 = "_files"
      · rw [if_pos hfn] at hp
        simp [markedList] at hp
      · rw [if_neg hfn,
          if_pos (show (!hasKey emptyS y.1) = true by simp [hasKey_emptyS])] at hp
        simp only [markedList, List.append_nil] at hp
        rw [markedOf_dir_ne _ _ (fun he => hd he.symm)] at hp
        simp only [List.mem_map] at hp
        rcases hp with ⟨r, hr, _⟩
        have hsz := dsize_lt_of_mem (n := y.1) (c := y.2) (s := s) (by simpa using hy')
        have hoc : (if !(emptyS : DirStructure).isEmptyD then lookupD emptyS y.1
            else emptyS) = emptyS := by
          simp [isEmptyD_emptyS]
        rw [hoc, ih y.2 m d hd (by omega)] at hr
        cases hr
    have h3 : markedList d
        (if !(emptyS : DirStructure).isEmptyD && (emptyS : DirStructure).files.isSome
         then onlyThereFiles ((emptyS : DirStructure).files.getD [])
           (s.files.getD []) m
         else []) = [] := by
      rw [if_neg (by simp [isEmptyD_emptyS])]
      rfl
    have h4 : markedList d
        (if !(emptyS : DirStructure).isEmptyD then
          (sortByKey (emptyS : DirStructure).dirs).flatMap (fun y =>
            if y.1 ≠ "_files" ∧ ¬ hasKey s y.1 then
              [CTree.dir y.1 Diff.onlyThere (build_comparison_tree emptyS y.2 m)]
            else [])
         else []) = [] := by
      rw [if_neg (by simp [isEmptyD_emptyS])]
      rfl
    rw [h1, h2, h3, h4]
    rfl

/-! Counting file entries of the rendered tree, for the partition property. -/

def isFileNamed (f : String) : CTree → Bool
  | .file n _ _ => n == f
  | .dir _ _ _ => false

def countFileEntries (f : String) (l : List CTree) : Nat :=
  l.countP (isFileNamed f)

theorem namesNodup_iff {l : List String} : namesNodup l = true ↔ l.Nodup := by
  induction l with
  | nil => simp [namesNodup]
  | cons a as ih =>
    simp only [namesNodup, Bool.and_eq_true, List.nodup_cons, ih]
    constructor
    · rintro ⟨h1, h2⟩
      refine ⟨?_, h2⟩
      intro hm
      rw [contains_iff_mem.mpr hm] at h1
      cases h1
    · rintro ⟨h1, h2⟩
      refine ⟨?_, h2⟩
      cases hc : as.contains a with
      | true => exact absurd (contains_iff_mem.mp hc) h1
      | false => rfl

theorem WF_navigate {s : DirStructure} (hs : WF s = true) (pth : List String) :
    WF (navigate s pth) = true := by
  induction pth generalizing s with
  | nil => exact hs
  | cons k p ih => exact ih (WF_lookupD hs k)

theorem countFileEntries_classifyFiles (f : String) (fs fio : List String)
    (m : List (String × String)) :
    countFileEntries f (classifyFiles fs fio m) = List.count f fs := by
  unfold countFileEntries classifyFiles
  rw [List.countP_map]
  have h : ∀ file : String,
      (isFileNamed f ∘ fun file =>
        if !fio.contains file then
          CTree.file file (colorMapGet m (strToLower (splitextExt file)) ++ " on green")
            Diff.onlyHere
        else
          CTree.file file (colorMapGet m (strToLower (splitextExt file))) Diff.common)
        file = (file == f) := by
    intro file
    by_cases hm : file ∈ fio
    · simp [hm, isFileNamed]
    · simp [hm, isFileNamed]
  rw [List.countP_congr (fun x _ => by rw [h x])]
  rw [← List.count_eq_countP]
  exact (sort_files_by_type_perm fs).count_eq f

theorem countP_and_beq {l : List String} {q : String → Bool} {f : String} :
    List.countP (fun x => q x && x == f) l =
      if q f = true then List.count f l else 0 := by
  induction l with
  | nil => simp [List.countP_nil, List.count_nil]
  | cons a as ih =>
    by_cases ha : a = f
    · subst ha
      rw [List.count_cons_self]
      by_cases hq : q a = true
      · rw [List.countP_cons_of_pos _ _ (by simp [hq]), ih]
        simp [hq]
      · simp only [Bool.not_eq_true] at hq
        rw [List.countP_cons_of_neg _ _ (by simp [hq]), ih]
        simp [hq]
    · rw [List.countP_cons_of_neg _ _ (by simp [ha]), ih,
        List.count_cons_of_ne (Ne.symm ha)]

theorem countFileEntries_onlyThereFiles (f : String) (fs ft : List String)
    (m : List (String × String)) :
    countFileEntries f (onlyThereFiles fs ft m) =
      if ft.contains f = false then List.count f fs else 0 := by
  unfold countFileEntries onlyThereFiles
  have h : ∀ l : List String,
      (l.flatMap (fun file =>
        if !ft.contains file then
          [CTree.file file
            (colorMapGet m (strToLower (splitextExt file)) ++ " on red")
            Diff.onlyThere]
        else [])).countP (isFileNamed f) =
      List.countP (fun x => !ft.contains x && x == f) l := by
    intro l
    induction l with
    | nil => rfl
    | cons a as ih =>
      rw [List.flatMap_cons, List.countP_append, ih]
      by_cases hc : ft.contains a = true
      · have hm := contains_iff_mem.mp hc
        rw [if_neg (by simp [hm]), List.countP_cons_of_neg _ _ (by simp [hm])]
        simp [List.countP_nil]
      · simp only [Bool.not_eq_true] at hc
        have hm := contains_eq_false.mp hc
        rw [if_pos (by simp [hm])]
        have hone : ∀ sty : String, List.countP (isFileNamed f)
            [CTree.file a sty Diff.onlyThere] = if a = f then 1 else 0 := by
          intro sty
          rw [List.countP_cons, List.countP_nil]
          by_cases haf : a = f
          · simp [haf, isFileNamed]
          · simp [haf, isFileNamed]
        rw [hone]
        by_cases haf : a = f
        · subst haf
          rw [List.countP_cons_of_pos _ _ (by simp [hm])]
          simp [Nat.add_comm]
        · rw [List.countP_cons_of_neg _ _ (by simp [haf])]
          simp [haf]
  rw [h (sort_files_by_type fs), countP_and_beq]
  rw [← (sort_files_by_type_perm fs).count_eq f]
  by_cases hq : ft.contains f = false
  · simp [hq]
  · simp only [Bool.not_eq_false] at hq
    simp [hq]

theorem countFileEntries_append (f : String) (a b : List CTree) :
    countFileEntries f (a ++ b) = countFileEntries f a + countFileEntries f b :=
  List.countP_append _ _ _

/-- Both subdirectory passes contribute no file entry at the current level. -/
theorem countFileEntries_dir_pass {α : Type} (f : String) (l : List α)
    (body : α → List CTree)
    (h : ∀ y, body y = [] ∨ ∃ n d cs, body y = [CTree.dir n d cs]) :
    countFileEntries f (l.flatMap body) = 0 := by
  unfold countFileEntries
  rw [List.countP_eq_zero]
  intro t ht
  simp only [List.mem_flatMap] at ht
  rcases ht with ⟨y, _, ht⟩
  rcases h y with hb | ⟨n, d, cs, hb⟩
  · rw [hb] at ht
    cases ht
  · rw [hb] at ht
    rcases List.mem_singleton.mp ht with rfl
    simp [isFileNamed]

theorem countFileEntries_build (s o : DirStructure) (m : List (String × String))
    (f : String) (hWs : WF s = true) (hWo : WF o = true)
    (hf : f ∈ s.files.getD [] ∨ f ∈ o.files.getD []) :
    countFileEntries f (build_comparison_tree s o m) = 1 := by
  rw [build_comparison_tree_def, countFileEntries_append, countFileEntries_append,
    countFileEntries_append]
  have hB : countFileEntries f ((sortByKey s.dirs).flatMap (fun y =>
      if y.1 = "_files" then []
      else if !hasKey o y.1 then
        [CTree.dir y.1 Diff.onlyHere
          (build_comparison_tree y.2 (if !o.isEmptyD then lookupD o y.1 else emptyS) m)]
      else
        [CTree.dir y.1 Diff.common
          (build_comparison_tree y.2 (if !o.isEmptyD then lookupD o y.1 else emptyS) m)])) = 0 := by
    apply countFileEntries_dir_pass
    intro y
    by_cases h1 : y.1 = "_files"
    · rw [if_pos h1]
      exact Or.inl rfl
    · rw [if_neg h1]
      by_cases h2 : (!hasKey o y.1) = true
      · rw [if_pos h2]
        exact Or.inr ⟨_, _, _, rfl⟩
      · rw [if_neg h2]
        exact Or.inr ⟨_, _, _, rfl⟩
  have hD : countFileEntries f (if !o.isEmptyD then
      (sortByKey o.dirs).flatMap (fun y =>
        if y.1 ≠ "_files" ∧ ¬ hasKey s y.1 then
          [CTree.dir y.1 Diff.onlyThere (build_comparison_tree emptyS y.2 m)]
        else [])
      else []) = 0 := by
    split
    · apply countFileEntries_dir_pass
      intro y
      by_cases h1 : y.1 ≠ "_files" ∧ ¬ hasKey s y.1
      · rw [if_pos h1]
        exact Or.inr ⟨_, _, _, rfl⟩
      · rw [if_neg h1]
        exact Or.inl rfl
    · rfl
  have hC : countFileEntries f (if !o.isEmptyD && o.files.isSome then
      onlyThereFiles (o.files.getD []) (s.files.getD []) m else []) =
      if f ∈ o.files.getD [] ∧ f ∉ s.files.getD [] then 1 else 0 := by
    cases hof : o.files with
    | none =>
      rw [if_neg (by simp)]
      simp [countFileEntries, List.countP_nil]
    | some fso =>
      have hnod : fso.Nodup := by
        have hx := filesNodup_of_WF hWo
        rw [hof] at hx
        exact namesNodup_iff.mp (by simpa using hx)
      rw [if_pos (by simp [isEmptyD_false_of_files_some hof])]
      rw [countFileEntries_onlyThereFiles]
      simp only [Option.getD_some]
      rw [List.count_eq_of_nodup hnod]
      by_cases h1 : f ∈ fso <;> by_cases h2 : f ∈ s.files.getD [] <;>
        simp [h1, h2, contains_eq_false]
  rw [hB, hD, hC]
  cases hsf : s.files with
  | none =>
    rw [hsf] at hf
    simp only [Option.getD_none, List.not_mem_nil, false_or] at hf
    have hzero : countFileEntries f
        (match (none : Option (List String)) with
         | some fs => classifyFiles fs (if !o.isEmptyD then o.files.getD [] else []) m
         | none => []) = 0 := rfl
    rw [hzero]
    simp [hf]
  | some fs =>
    have hnodup : fs.Nodup := by
      have hx := filesNodup_of_WF hWs
      rw [hsf] at hx
      exact namesNodup_iff.mp (by simpa using hx)
    have hA : countFileEntries f
        (match (some fs : Option (List String)) with
         | some fs => classifyFiles fs (if !o.isEmptyD then o.files.getD [] else []) m
         | none => []) = if f ∈ fs then 1 else 0 := by
      show countFileEntries f (classifyFiles fs
        (if !o.isEmptyD then o.files.getD [] else []) m) = _
      rw [countFileEntries_classifyFiles, List.count_eq_of_nodup hnodup]
    rw [hA]
    by_cases h1 : f ∈ fs
    · simp [h1]
    · rw [hsf] at hf
      simp only [Option.getD_some] at hf
      have h2 : f ∈ o.files.getD [] := by
        rcases hf with hf | hf
        · exact absurd hf h1
        · exact hf
      simp [h1, h2]

/-! The text export `_export_comparison_to_txt` (compare.py lines 316-397).
`_build_txt_tree` walks one structure alone; the two renderings are then
laid out as padded columns.  The written file's content is modelled as the
string passed to `f.write`. -/

/-- Python `"c" * n`. -/
def repChar (n : Nat) (c : Char) : String := String.mk (List.replicate n c)

/-- Python `f"{s:<{w}}"`: left-justify to width `w` in characters. -/
def padTo (s : String) (w : Nat) : String := s ++ repChar (w - s.length) ' '

/-- The `sorted(structure.items())` list: subdirectories plus, when files
are present, the reserved `"_files"` key (whose list value the walk skips
and re-reads from the structure). -/
def txtItems (s : DirStructure) : List (String × Option DirStructure) :=
  List.insertionSort (fun a b => strLe a.1 b.1 = true)
    (s.dirs.map (fun p => (p.1, some p.2)) ++
      (match s.files with
       | some _ => [("_files", (none : Option DirStructure))]
       | none => []))

theorem txtItems_some_mem {s : DirStructure} {n : String} {sub : DirStructure}
    (h : (n, some sub) ∈ txtItems s) : (n, sub) ∈ s.dirs := by
  have h1 : (n, some sub) ∈ s.dirs.map (fun p => (p.1, some p.2)) ++
      (match s.files with
       | some _ => [("_files", (none : Option DirStructure))]
       | none => []) := by
    simpa [txtItems, List.mem_insertionSort] using h
  rw [List.mem_append] at h1
  cases h1 with
  | inl h1 =>
    simp only [List.mem_map] at h1
    rcases h1 with ⟨p, hp, he⟩
    cases p with | mk a b =>
    simp only [Prod.mk.injEq, Option.some.injEq] at he
    rw [← he.1, ← he.2]
    exact hp
  | inr h1 =>
    cases hf : s.files with
    | none => rw [hf] at h1; cases h1
    | some fs =>
      rw [hf] at h1
      rcases List.mem_singleton.mp h1 with he
      cases he

/-- `_build_txt_tree` (lines 321-354).  The unused `is_last` parameter of
the source is dropped; `isinstance(content, dict)` always holds for a
subdirectory value.  The `is_last_item` index formula is the source's. -/
def buildTxtTree (s : DirStructure) (pre : String) : List String :=
  ((txtItems s).enum.attach.flatMap (fun x =>
    match _hx : x.1.2.2 with
    | none => []
    | some sub =>
      let isLast := x.1.1 = (txtItems s).length - 1 ∨
        (x.1.1 = (txtItems s).length - 2 ∧ s.files.isSome)
      if isLast then
        (pre ++ "└── 📁 " ++ x.1.2.1) :: buildTxtTree sub (pre ++ "    ")
      else
        (pre ++ "├── 📁 " ++ x.1.2.1) :: buildTxtTree sub (pre ++ "│   "))) ++
  (match s.files with
   | some fs =>
     (sort_files_by_type fs).enum.map (fun z =>
       if z.1 = (sort_files_by_type fs).length - 1 then pre ++ "└── 📄 " ++ z.2
       else pre ++ "├── 📄 " ++ z.2)
   | none => [])
termination_by dsize s
decreasing_by
  all_goals
    have hm : x.1 ∈ (txtItems s).enum := x.2
    have h1 := List.mem_enum hm
    have h2 : x.1.2 ∈ txtItems s := by
      rw [h1.2]
      exact List.getElem_mem h1.1
    have h3 : (x.1.2.1, sub) ∈ s.dirs := by
      apply txtItems_some_mem (n := x.1.2.1)
      rw [← _hx]
      exact h2
    exact dsize_lt_of_mem h3

theorem buildTxtTree_emptyS (pre : String) : buildTxtTree emptyS pre = [] := by
  unfold buildTxtTree
  simp only [show txtItems emptyS = [] from rfl, List.enum_nil, List.attach_nil,
    List.flatMap_nil, List.nil_append]
  rfl

/-- The `comparison_data` record `export_comparison` assembles (lines
298-306), with the `metadata` pattern lists already stringified. -/
structure CompData where
  dir1Path : String
  dir1Name : String
  dir1Struct : DirStructure
  dir2Path : String
  dir2Name : String
  dir2Struct : DirStructure
  excludePatterns : List String
  includePatterns : List String
  patternType : String

/-- The string `_export_comparison_to_txt` writes to the output file
(lines 356-397).  `max(...)` over the never-empty left line list is the
fold; truthiness of the metadata lists is non-emptiness. -/
def exportTxtContent (d : CompData) : String :=
  let dir1Lines := ("📂 " ++ d.dir1Name) :: buildTxtTree d.dir1Struct ""
  let dir2Lines := ("📂 " ++ d.dir2Name) :: buildTxtTree d.dir2Struct ""
  let maxWidth := ((dir1Lines.map String.length).foldr Nat.max 0) + 4
  let combined :=
    ["Directory Comparison:", repChar 80 '=',
     "Left: " ++ d.dir1Path, "Right: " ++ d.dir2Path] ++
    (if d.excludePatterns ≠ [] ∨ d.includePatterns ≠ [] then
      [repChar 80 '-'] ++
      (if d.excludePatterns ≠ [] then
        ["Exclude " ++ d.patternType ++ " patterns: " ++
          String.intercalate ", " d.excludePatterns] else []) ++
      (if d.includePatterns ≠ [] then
        ["Include " ++ d.patternType ++ " patterns: " ++
          String.intercalate ", " d.includePatterns] else [])
     else []) ++
    [repChar 80 '='] ++
    (List.range (max dir1Lines.length dir2Lines.length)).map (fun i =>
      padTo (dir1Lines.getD i "") maxWidth ++ " | " ++ dir2Lines.getD i "")
  String.intercalate "\n" combined

/-! The claim's reading of the text export, built from parts that are
visibly per-side and header-block shaped. -/

/-- One side's full filtered tree, rendered independently of the other
side and carrying no only-here or only-there marking. -/
def txtSideLines (name : String) (s : DirStructure) : List String :=
  ("📂 " ++ name) :: buildTxtTree s ""

/-- Title line, separator rule, the literal root paths, a pattern block
only when patterns were supplied, а closing rule. -/
def txtHeaderBlock (d : CompData) : List String :=
  ["Directory Comparison:", repChar 80 '=',
   "Left: " ++ d.dir1Path, "Right: " ++ d.dir2Path] ++
  (if d.excludePatterns ≠ [] ∨ d.includePatterns ≠ [] then
    [repChar 80 '-'] ++
    (if d.excludePatterns ≠ [] then
      ["Exclude " ++ d.patternType ++ " patterns: " ++
        String.intercalate ", " d.excludePatterns] else []) ++
    (if d.includePatterns ≠ [] then
      ["Include " ++ d.patternType ++ " patterns: " ++
        String.intercalate ", " d.includePatterns] else [])
   else []) ++
  [repChar 80 '=']

/-- Each output line: the left line padded to the widest left line plus a
four-character margin, a space, a vertical bar, a space, the right line. -/
def txtColumns (left right : List String) : List String :=
  (List.range (max left.length right.length)).map (fun i =>
    padTo (left.getD i "") ((left.map String.length).foldr Nat.max 0 + 4) ++
      " | " ++ right.getD i "")

def txtLayoutSpec (d : CompData) : String :=
  String.intercalate "\n" (txtHeaderBlock d ++
    txtColumns (txtSideLines d.dir1Name d.dir1Struct)
      (txtSideLines d.dir2Name d.dir2Struct))


/-! The HTML export `_export_comparison_to_html` (compare.py lines
400-598).  Its uniqueness test compares the structure currently being
rendered against `comparison_data["dir1"]["structure"]` by Python `==`
(value equality, modelled by the structural `deqS`) to decide which side
is "other" - at every recursion depth. -/

mutual
def deqS : DirStructure → DirStructure → Bool
  | .mk f1 d1, .mk f2 d2 => f1 == f2 && deqDirs d1 d2
def deqDirs : List (String × DirStructure) → List (String × DirStructure) → Bool
  | [], [] => true
  | (n1, c1) :: r1, (n2, c2) :: r2 => n1 == n2 && deqS c1 c2 && deqDirs r1 r2
  | _, _ => false
end

/-- Python `html.escape` with its default quoting. -/
def escapeChar (c : Char) : String :=
  if c = '&' then "&amp;"
  else if c = '<' then "&lt;"
  else if c = '>' then "&gt;"
  else if c.toNat = 34 then "&quot;"
  else if c.toNat = 39 then "&#x27;"
  else String.mk [c]

def htmlEscape (s : String) : String := String.join (s.data.map escapeChar)

/-- `_build_html_tree` (lines 406-447): the `"\n".join`-ed `<ul>` block of
one pane.  `D1`/`D2` are the two root structures the closure reads from
`comparison_data`. -/
def buildHtmlTree (D1 D2 s : DirStructure) (includeDiff : Bool) : String :=
  let dirLines := (sortByKey s.dirs).attach.flatMap (fun x =>
    if x.1.1 = "_files" then []
    else
      let dirClass :=
        if includeDiff then
          if !hasKey (if deqS s D1 then D2 else D1) x.1.1 then
            " class=\"directory-unique\""
          else ""
        else ""
      ["<li" ++ dirClass ++ "><span class=\"directory\">📁 " ++
        htmlEscape x.1.1 ++ "</span>",
       buildHtmlTree D1 D2 x.1.2 includeDiff,
       "</li>"])
  let fileLines :=
    match s.files with
    | some fs => (sort_files_by_type fs).map (fun file =>
        let fileClass :=
          if includeDiff then
            if !((if deqS s D1 then D2 else D1).files.getD []).contains file then
              " class=\"file-unique\""
            else ""
          else ""
        "<li" ++ fileClass ++ "><span class=\"file\">📄 " ++
          htmlEscape file ++ "</span></li>")
    | none => []
  String.intercalate "\n" (["<ul>"] ++ dirLines ++ fileLines ++ ["</ul>"])
termination_by dsize s
decreasing_by
  · have h1 : x.1 ∈ s.dirs := mem_sortByKey.mp x.2
    exact dsize_lt_of_mem (n := x.1.1) (c := x.1.2) (s := s) (by simpa using h1)

/-- The set of relative paths `_build_html_tree` decorates with the
`file-unique` or `directory-unique` class: the same conditionals as
`buildHtmlTree`, recorded as paths instead of markup. -/
def htmlUniquePaths (D1 D2 s : DirStructure) (includeDiff : Bool) : List EntryPath :=
  ((sortByKey s.dirs).attach.flatMap (fun x =>
    if x.1.1 = "_files" then []
    else
      (if includeDiff then
        (if !hasKey (if deqS s D1 then D2 else D1) x.1.1 then
          [(([x.1.1] : List String), EKind.dir)]
         else [])
       else []) ++
      (htmlUniquePaths D1 D2 x.1.2 includeDiff).map (fun p => (x.1.1 :: p.1, p.2)))) ++
  (match s.files with
   | some fs => (sort_files_by_type fs).flatMap (fun file =>
       if includeDiff then
         if !((if deqS s D1 then D2 else D1).files.getD []).contains file then
           [(([file] : List String), EKind.file)]
         else []
       else [])
   | none => [])
termination_by dsize s
decreasing_by
  · have h1 : x.1 ∈ s.dirs := mem_sortByKey.mp x.2
    exact dsize_lt_of_mem (n := x.1.1) (c := x.1.2) (s := s) (by simpa using h1)

theorem htmlUniquePaths_def (D1 D2 s : DirStructure) (includeDiff : Bool) :
    htmlUniquePaths D1 D2 s includeDiff =
      ((sortByKey s.dirs).flatMap (fun y =>
        if y.1 = "_files" then []
        else
          (if includeDiff then
            (if !hasKey (if deqS s D1 then D2 else D1) y.1 then
              [(([y.1] : List String), EKind.dir)]
             else [])
           else []) ++
          (htmlUniquePaths D1 D2 y.2 includeDiff).map (fun p => (y.1 :: p.1, p.2)))) ++
      (match s.files with
       | some fs => (sort_files_by_type fs).flatMap (fun file =>
           if includeDiff then
             if !((if deqS s D1 then D2 else D1).files.getD []).contains file then
               [(([file] : List String), EKind.file)]
             else []
           else [])
       | none => []) := by
  conv_lhs => rw [htmlUniquePaths]
  rw [attach_flatMap (sortByKey s.dirs) (fun y : String × DirStructure =>
    if y.1 = "_files" then []
    else
      (if includeDiff then
        (if !hasKey (if deqS s D1 then D2 else D1) y.1 then
          [(([y.1] : List String), EKind.dir)]
         else [])
       else []) ++
      (htmlUniquePaths D1 D2 y.2 includeDiff).map (fun p => (y.1 :: p.1, p.2)))]

/-- The failing input for the HTML-uniqueness agreement: both directories
hold exactly `sub/a.txt`. -/
def cexD : DirStructure := .mk none [("sub", .mk (some ["a.txt"]) [])]

theorem htmlUnique_cex_inner :
    (["a.txt"], EKind.file) ∈
      htmlUniquePaths cexD cexD (.mk (some ["a.txt"]) []) true := by
  rw [htmlUniquePaths_def]
  decide

theorem htmlUnique_cex_mem :
    (["sub", "a.txt"], EKind.file) ∈ htmlUniquePaths cexD cexD cexD true := by
  rw [htmlUniquePaths_def]
  apply List.mem_append.mpr
  refine Or.inl ?_
  rw [show sortByKey cexD.dirs =
    [("sub", DirStructure.mk (some ["a.txt"]) [])] from rfl]
  apply List.mem_flatMap.mpr
  refine ⟨("sub", DirStructure.mk (some ["a.txt"]) []), List.mem_singleton.mpr rfl, ?_⟩
  apply List.mem_append.mpr
  refine Or.inr ?_
  apply List.mem_map.mpr
  exact ⟨(["a.txt"], EKind.file), htmlUnique_cex_inner, rfl⟩

theorem uniquePaths_cexD : uniquePaths cexD cexD = [] := by
  have hCC : uniquePaths (.mk (some ["a.txt"]) []) (.mk (some ["a.txt"]) []) = [] := by
    rw [uniquePaths_def]
    decide
  rw [List.eq_nil_iff_forall_not_mem]
  intro p hp
  rcases mem_uniquePaths_iff.mp hp with ⟨f, hf, _, _⟩ | ⟨y, hy, hyn, hbr⟩
  · simp [cexD, DirStructure.files] at hf
  · have hy2 : y = ("sub", DirStructure.mk (some ["a.txt"]) []) := by
      simpa [cexD, DirStructure.dirs] using hy
    subst hy2
    rcases hbr with ⟨hK, r, hr, _⟩ | ⟨hKf, _⟩
    · rw [show lookupD cexD "sub" = DirStructure.mk (some ["a.txt"]) [] from rfl,
        hCC] at hr
      cases hr
    · rw [show hasKey cexD "sub" = true from rfl] at hKf
      cases hKf

/-- Python `str.capitalize`. -/
def strCapitalize (s : String) : String :=
  match s.data with
  | [] => ""
  | c :: rest => String.mk (c.toUpper :: rest.map Char.toLower)

/-- The full document `_export_comparison_to_html` writes (lines 449-598):
the f-string template with the escaped names and paths, the optional
patterns section, and the two `<ul>` panes. -/
def exportHtmlContent (d : CompData) : String :=
  let dir1_name := htmlEscape d.dir1Name
  let dir2_name := htmlEscape d.dir2Name
  let dir1_path := htmlEscape d.dir1Path
  let dir2_path := htmlEscape d.dir2Path
  let pattern_info_html :=
    if d.excludePatterns ≠ [] ∨ d.includePatterns ≠ [] then
      let pattern_type := strCapitalize d.patternType
      let pattern_items :=
        (if d.excludePatterns ≠ [] then
          ["<dt>Exclude " ++ pattern_type ++ " Patterns:</dt><dd>" ++
            String.intercalate ", " (d.excludePatterns.map htmlEscape) ++ "</dd>"]
         else []) ++
        (if d.includePatterns ≠ [] then
          ["<dt>Include " ++ pattern_type ++ " Patterns:</dt><dd>" ++
            String.intercalate ", " (d.includePatterns.map htmlEscape) ++ "</dd>"]
         else [])
      if pattern_items ≠ [] then
        "\n            <div class=\"pattern-info\">\n                <h3>Applied Patterns</h3>\n                <dl>\n                    "
     ++ String.join pattern_items
     ++ "\n                </dl>\n            </div>\n            "
      else ""
    else ""
  "\n    <!DOCTYPE html>\n    <html>\n    <head>\n        <meta charset=\"utf-8\">\n        <title>Directory Comparison - "
     ++ dir1_name ++ " vs " ++ dir2_name
     ++ "</title>\n        <style>\n            body \x7b\n                font-family: Arial, sans-serif;\n                margin: 0;\n                padding: 20px;\n            \x7d\n            .comparison-container \x7b\n                display: flex;\n                border: 1px solid #ccc;\n            \x7d\n            .directory-tree \x7b\n                flex: 1;\n                padding: 15px;\n                overflow: auto;\n                border-right: 1px solid #ccc;\n            \x7d\n            .directory-tree:last-child \x7b\n                border-right: none;\n            \x7d\n            h1, h2 \x7b\n                text-align: center;\n            \x7d\n            h3 \x7b\n                margin-top: 0;\n                padding: 10px;\n                background-color: #f0f0f0;\n                border-bottom: 1px solid #ccc;\n            \x7d\n            ul \x7b\n                list-style-type: none;\n                padding-left: 20px;\n            \x7d\n            .directory \x7b\n                color: #2c3e50;\n                font-weight: bold;\n            \x7d\n            .file \x7b\n                color: #34495e;\n            \x7d\n            .file-unique \x7b\n                background-color: #fcf3cf;\n            \x7d\n            .directory-unique \x7b\n                background-color: #fcf3cf;\n            \x7d\n            .legend \x7b\n                margin-bottom: 20px;\n                padding: 10px;\n                background-color: #f8f9fa;\n                border: 1px solid #ddd;\n                border-radius: 4px;\n            \x7d\n            .legend-item \x7b\n                display: inline-block;\n                margin-right: 20px;\n            \x7d\n            .legend-color \x7b\n                display: inline-block;\n                width: 15px;\n                height: 15px;\n                margin-right: 5px;\n                vertical-align: middle;\n            \x7d\n            .legend-unique \x7b\n                background-color: #fcf3cf;\n            \x7d\n            .pattern-info \x7b\n                margin-bottom: 20px;\n                padding: 10px;\n                background-color: #f0f8ff;\n                border: 1px solid #add8e6;\n                border-radius: 4px;\n            \x7d\n            dt \x7b\n                font-weight: bold;\n                margin-top: 10px;\n            \x7d\n            dd \x7b\n                margin-left: 20px;\n                margin-bottom: 10px;\n            \x7d\n        </style>\n    </head>\n    <body>\n        <h1>Directory Comparison</h1>\n        "
     ++ pattern_info_html
     ++ "\n        <div class=\"legend\">\n            <div class=\"legend-item\">\n                <span class=\"legend-color legend-unique\"></span>\n                <span>Unique to this directory</span>\n            </div>\n        </div>\n        <div class=\"comparison-container\">\n            <div class=\"directory-tree\">\n                <h3>📂 "
     ++ dir1_name ++ "</h3>\n                <p><em>Path: " ++ dir1_path
     ++ "</em></p>\n                "
     ++ buildHtmlTree d.dir1Struct d.dir2Struct d.dir1Struct true
     ++ "\n            </div>\n            <div class=\"directory-tree\">\n                <h3>📂 "
     ++ dir2_name ++ "</h3>\n                <p><em>Path: " ++ dir2_path
     ++ "</em></p>\n                "
     ++ buildHtmlTree d.dir1Struct d.dir2Struct d.dir2Struct true
     ++ "\n            </div>\n        </div>\n    </body>\n    </html>\n    "

/-! `compare_directory_structures` (lines 26-69) and `export_comparison`
(lines 240-313).  The external `get_directory_structure` walker and
`compile_regex_patterns` from `recursivist/core.py` are parameters: the
comparator only forwards the configuration to them. -/

/-- The filter configuration both walks receive. -/
structure FilterConfig where
  excludeDirs : List String
  ignoreFile : Option String
  excludeExtensions : List String
  excludePatterns : List String
  includePatterns : List String

/-- The two walks with the identical configuration, and the union of the
extension sets (`extensions1.union(extensions2)`). -/
def compare_directory_structures
    (get_directory_structure : String → FilterConfig → DirStructure × List String)
    (dir1 dir2 : String) (cfg : FilterConfig) :
    DirStructure × DirStructure × List String :=
  let r1 := get_directory_structure dir1 cfg
  let r2 := get_directory_structure dir2 cfg
  (r1.1, r2.1, r1.2.union r2.2)

/-- The extension-exclusion normalization of `display_comparison`
(lines 163-166): a missing leading dot is added, everything lowercased. -/
def display_normalize_extensions (exts : List String) : List String :=
  exts.map (fun ext =>
    if startsWithDot ext then strToLower ext else "." ++ strToLower ext)

/-- The identical comprehension in `export_comparison` (lines 279-282). -/
def export_normalize_extensions (exts : List String) : List String :=
  exts.map (fun ext =>
    if startsWithDot ext then strToLower ext else "." ++ strToLower ext)

/-- Python `os.path.basename` on the POSIX paths the tool handles. -/
def basename (p : String) : String := (p.splitOn "/").getLastD ""

/-- The effect of `export_comparison`: either the single whole-file write
`(output_path, content)`, or the `ValueError` message. -/
def export_comparison
    (get_directory_structure : String → FilterConfig → DirStructure × List String)
    (compile_regex_patterns : List String → Bool → List String)
    (dir1 dir2 format_type output_path : String)
    (excludeDirs : List String) (ignoreFile : Option String)
    (excludeExtensions : List String)
    (excludePatterns includePatterns : List String) (useRegex : Bool) :
    Except String (String × String) :=
  let excludeExtensions2 := export_normalize_extensions excludeExtensions
  let compiledExclude := compile_regex_patterns excludePatterns useRegex
  let compiledInclude := compile_regex_patterns includePatterns useRegex
  let r := compare_directory_structures get_directory_structure dir1 dir2
    ⟨excludeDirs, ignoreFile, excludeExtensions2, compiledExclude, compiledInclude⟩
  let comparison_data : CompData :=
    ⟨dir1, basename dir1, r.1, dir2, basename dir2, r.2.1,
     excludePatterns, includePatterns, if useRegex then "regex" else "glob"⟩
  if format_type = "txt" then
    Except.ok (output_path, exportTxtContent comparison_data)
  else if format_type = "html" then
    Except.ok (output_path, exportHtmlContent comparison_data)
  else
    Except.error ("Unsupported format: " ++ format_type)

/-- The files a run of `export_comparison` leaves on disk: none when it
raises, the one whole-file write otherwise. -/
def writesOf (r : Except String (String × String)) : List (String × String) :=
  match r with
  | Except.ok w => [w]
  | Except.error _ => []

theorem strToLower_dot_append (ext : String) :
    strToLower ("." ++ ext) = "." ++ strToLower ext := by
  have h : ("." ++ ext).data = '.' :: ext.data := by
    rw [String.data_append]
    rfl
  have h2 : ("." ++ strToLower ext).data = '.' :: (strToLower ext).data := by
    rw [String.data_append]
    rfl
  apply String.ext
  rw [h2]
  show (("." ++ ext).data.map Char.toLower) = _
  rw [h]
  simp [strToLower]

theorem startsWithDot_dot_append (ext : String) :
    startsWithDot ("." ++ ext) = true := by
  unfold startsWithDot
  have h : ("." ++ ext).data = '.' :: ext.data := by
    rw [String.data_append]
    rfl
  rw [h]
  rfl

theorem mem_classifyFiles_notin {f : String} {fs fio : List String}
    {m : List (String × String)} (hf : f ∈ fs) (hno : f ∉ fio) :
    CTree.file f (colorMapGet m (strToLower (splitextExt f)) ++ " on green")
      Diff.onlyHere ∈ classifyFiles fs fio m := by
  unfold classifyFiles
  apply List.mem_map.mpr
  refine ⟨f, mem_sort_files_by_type.mpr hf, ?_⟩
  simp [hno]

theorem mem_classifyFiles_isin {f : String} {fs fio : List String}
    {m : List (String × String)} (hf : f ∈ fs) (hin : f ∈ fio) :
    CTree.file f (colorMapGet m (strToLower (splitextExt f)))
      Diff.common ∈ classifyFiles fs fio m := by
  unfold classifyFiles
  apply List.mem_map.mpr
  refine ⟨f, mem_sort_files_by_type.mpr hf, ?_⟩
  simp [hin]

theorem mem_onlyThereFiles {f : String} {fs ft : List String}
    {m : List (String × String)} (hf : f ∈ fs) (hno : f ∉ ft) :
    CTree.file f (colorMapGet m (strToLower (splitextExt f)) ++ " on red")
      Diff.onlyThere ∈ onlyThereFiles fs ft m := by
  unfold onlyThereFiles
  apply List.mem_flatMap.mpr
  refine ⟨f, mem_sort_files_by_type.mpr hf, ?_⟩
  simp [hno]

theorem colorMapGet_none {m : List (String × String)} {ext : String}
    (h : m.find? (fun p => p.1 == ext) = none) : colorMapGet m ext = "#FFFFFF" := by
  unfold colorMapGet
  rw [h]

/-! The claims. -/

/-- C1: for every pair of well-formed structures, the set of entries
(files and subdirectories, at each relative path) `build_comparison_tree`
marks only-here with (structure, other) = (S1, S2) is exactly the set it
marks only-there with the sides swapped, and vice versa; and no entry is
marked only-here in both renders. -/
theorem diff_classification_symmetry (s1 s2 : DirStructure)
    (m : List (String × String)) (h1 : WF s1 = true) (h2 : WF s2 = true) :
    (∀ p : EntryPath,
      p ∈ markedList Diff.onlyHere (build_comparison_tree s1 s2 m) ↔
        p ∈ markedList Diff.onlyThere (build_comparison_tree s2 s1 m)) ∧
    (∀ p : EntryPath,
      p ∈ markedList Diff.onlyThere (build_comparison_tree s1 s2 m) ↔
        p ∈ markedList Diff.onlyHere (build_comparison_tree s2 s1 m)) ∧
    (∀ p : EntryPath,
      ¬ (p ∈ markedList Diff.onlyHere (build_comparison_tree s1 s2 m) ∧
         p ∈ markedList Diff.onlyHere (build_comparison_tree s2 s1 m))) := by
  refine ⟨?_, ?_, ?_⟩
  · intro p
    rw [marked_onlyHere_build (dsize s1 + dsize s2) s1 s2 m le_rfl p,
      marked_onlyThere_build (dsize s2 + dsize s1) s2 s1 m h2 h1 le_rfl p]
  · intro p
    rw [marked_onlyThere_build (dsize s1 + dsize s2) s1 s2 m h1 h2 le_rfl p,
      marked_onlyHere_build (dsize s2 + dsize s1) s2 s1 m le_rfl p]
  · intro p hp
    have ha := (marked_onlyHere_build (dsize s1 + dsize s2) s1 s2 m le_rfl p).mp hp.1
    have hb := (marked_onlyHere_build (dsize s2 + dsize s1) s2 s1 m le_rfl p).mp hp.2
    exact uniquePaths_disjoint (dsize s1 + dsize s2) s1 s2 h1 h2 le_rfl p ha hb

theorem diff_classification_symmetry_witness :
    WF (DirStructure.mk (some ["a.py"])
      [("d", DirStructure.mk (some ["x.txt"]) [])]) = true ∧
    WF (DirStructure.mk (some ["b.py"]) []) = true ∧
    ((∀ p : EntryPath,
      p ∈ markedList Diff.onlyHere (build_comparison_tree
        (DirStructure.mk (some ["a.py"]) [("d", DirStructure.mk (some ["x.txt"]) [])])
        (DirStructure.mk (some ["b.py"]) []) []) ↔
        p ∈ markedList Diff.onlyThere (build_comparison_tree
          (DirStructure.mk (some ["b.py"]) [])
          (DirStructure.mk (some ["a.py"]) [("d", DirStructure.mk (some ["x.txt"]) [])])
          [])) ∧
    (∀ p : EntryPath,
      p ∈ markedList Diff.onlyThere (build_comparison_tree
        (DirStructure.mk (some ["a.py"]) [("d", DirStructure.mk (some ["x.txt"]) [])])
        (DirStructure.mk (some ["b.py"]) []) []) ↔
        p ∈ markedList Diff.onlyHere (build_comparison_tree
          (DirStructure.mk (some ["b.py"]) [])
          (DirStructure.mk (some ["a.py"]) [("d", DirStructure.mk (some ["x.txt"]) [])])
          [])) ∧
    (∀ p : EntryPath,
      ¬ (p ∈ markedList Diff.onlyHere (build_comparison_tree
        (DirStructure.mk (some ["a.py"]) [("d", DirStructure.mk (some ["x.txt"]) [])])
        (DirStructure.mk (some ["b.py"]) []) []) ∧
         p ∈ markedList Diff.onlyHere (build_comparison_tree
          (DirStructure.mk (some ["b.py"]) [])
          (DirStructure.mk (some ["a.py"]) [("d", DirStructure.mk (some ["x.txt"]) [])])
          [])))) :=
  ⟨by decide, by decide,
    diff_classification_symmetry _ _ [] (by decide) (by decide)⟩

/-- C3: at every relative path of a well-formed pair, every file name in
the union of the two sides' file lists at that path is rendered with
exactly one classification - one file entry, carrying one of common,
only-left, only-right; never zero entries and never two. -/
theorem file_classification_partition (s o : DirStructure)
    (m : List (String × String)) (pth : List String) (f : String)
    (hWs : WF s = true) (hWo : WF o = true)
    (hf : f ∈ (navigate s pth).files.getD [] ∨
      f ∈ (navigate o pth).files.getD []) :
    countFileEntries f
      (build_comparison_tree (navigate s pth) (navigate o pth) m) = 1 :=
  countFileEntries_build _ _ m f (WF_navigate hWs pth) (WF_navigate hWo pth) hf

theorem file_classification_partition_witness :
    WF (DirStructure.mk (some ["a.py", "b.py"]) []) = true ∧
    WF (DirStructure.mk (some ["a.py", "c.py"]) []) = true ∧
    ("b.py" ∈ (navigate (DirStructure.mk (some ["a.py", "b.py"]) []) []).files.getD [] ∨
      "b.py" ∈ (navigate (DirStructure.mk (some ["a.py", "c.py"]) []) []).files.getD []) ∧
    countFileEntries "b.py"
      (build_comparison_tree
        (navigate (DirStructure.mk (some ["a.py", "b.py"]) []) [])
        (navigate (DirStructure.mk (some ["a.py", "c.py"]) []) []) []) = 1 :=
  ⟨by decide, by decide, by decide,
    file_classification_partition _ _ [] [] "b.py" (by decide) (by decide) (by decide)⟩

/-- C4: against an empty second side, every entry of the non-empty side
is classified only-here (the green set is exactly all its entries, with
no common and no only-there markings), and the empty side's text render
shows zero entries under its root line. -/
theorem empty_side_comparison (s : DirStructure) (m : List (String × String))
    (_hne : s.isEmptyD = false) :
    (∀ p : EntryPath,
      p ∈ markedList Diff.onlyHere (build_comparison_tree s emptyS m) ↔
        p ∈ allPaths s) ∧
    markedList Diff.common (build_comparison_tree s emptyS m) = [] ∧
    markedList Diff.onlyThere (build_comparison_tree s emptyS m) = [] ∧
    buildTxtTree emptyS "" = [] := by
  refine ⟨?_, ?_, ?_, buildTxtTree_emptyS ""⟩
  · intro p
    rw [marked_onlyHere_build (dsize s + dsize emptyS) s emptyS m le_rfl p,
      uniquePaths_emptyS_right]
  · exact marked_not_onlyHere_build_emptyS (dsize s) s m Diff.common (by decide) le_rfl
  · exact marked_not_onlyHere_build_emptyS (dsize s) s m Diff.onlyThere (by decide)
      le_rfl

theorem empty_side_comparison_witness :
    (DirStructure.mk (some ["a.py"]) []).isEmptyD = false ∧
    ((∀ p : EntryPath,
      p ∈ markedList Diff.onlyHere
        (build_comparison_tree (DirStructure.mk (some ["a.py"]) []) emptyS []) ↔
        p ∈ allPaths (DirStructure.mk (some ["a.py"]) [])) ∧
    markedList Diff.common
      (build_comparison_tree (DirStructure.mk (some ["a.py"]) []) emptyS []) = [] ∧
    markedList Diff.onlyThere
      (build_comparison_tree (DirStructure.mk (some ["a.py"]) []) emptyS []) = [] ∧
    buildTxtTree emptyS "" = []) :=
  ⟨by decide, empty_side_comparison _ [] (by decide)⟩

/-- C5: for a format type outside txt and html, `export_comparison`
raises a `ValueError` whose message names the invalid value, and no file
is written: the run's write set is empty, so the target path is not
created. -/
theorem export_unsupported_format
    (gds : String → FilterConfig → DirStructure × List String)
    (crp : List String → Bool → List String)
    (dir1 dir2 format_type output_path : String)
    (excludeDirs : List String) (ignoreFile : Option String)
    (excludeExtensions excludePatterns includePatterns : List String)
    (useRegex : Bool)
    (h1 : format_type ≠ "txt") (h2 : format_type ≠ "html") :
    export_comparison gds crp dir1 dir2 format_type output_path excludeDirs
        ignoreFile excludeExtensions excludePatterns includePatterns useRegex =
      Except.error ("Unsupported format: " ++ format_type) ∧
    writesOf (export_comparison gds crp dir1 dir2 format_type output_path
        excludeDirs ignoreFile excludeExtensions excludePatterns includePatterns
        useRegex) = [] := by
  have he : export_comparison gds crp dir1 dir2 format_type output_path excludeDirs
      ignoreFile excludeExtensions excludePatterns includePatterns useRegex =
      Except.error ("Unsupported format: " ++ format_type) := by
    unfold export_comparison
    rw [if_neg h1, if_neg h2]
  refine ⟨he, ?_⟩
  rw [he]
  rfl

theorem export_unsupported_format_witness :
    ("pdf" : String) ≠ "txt" ∧ ("pdf" : String) ≠ "html" ∧
    (export_comparison (fun _ _ => (emptyS, [])) (fun l _ => l)
        "a" "b" "pdf" "out.pdf" [] none [] [] [] false =
      Except.error ("Unsupported format: " ++ "pdf") ∧
    writesOf (export_comparison (fun _ _ => (emptyS, [])) (fun l _ => l)
        "a" "b" "pdf" "out.pdf" [] none [] [] [] false) = []) :=
  ⟨by decide, by decide,
    export_unsupported_format (fun _ _ => (emptyS, [])) (fun l _ => l)
      "a" "b" "pdf" "out.pdf" [] none [] [] [] false (by decide) (by decide)⟩

/-- C6: the text export is a header block (title, rule, the literal left
and right root paths, a pattern block only when patterns were supplied, a
closing rule) followed by two columns: each line is the left side's line
padded to the widest left-column line plus a fixed margin, then a
vertical bar, then the right side's line; each side's tree is rendered
independently of the other, with no only-here/only-there markings, and
the content is a pure function of the filtered structures. -/
theorem txt_export_layout (d : CompData) : exportTxtContent d = txtLayoutSpec d := by
  simp only [exportTxtContent, txtLayoutSpec, txtHeaderBlock, txtColumns,
    txtSideLines, List.append_assoc]

/-- C7: both `display_comparison` and `export_comparison` normalize the
excluded extensions the same way: a missing leading dot is added and the
result lowercased (so matching is case-insensitive; "PY" and ".py" yield
the same normalized exclusion). -/
theorem extension_exclusion_normalization :
    (∀ l : List String,
      display_normalize_extensions l = export_normalize_extensions l) ∧
    (∀ ext : String,
      (if startsWithDot ext then strToLower ext else "." ++ strToLower ext) =
        strToLower (if startsWithDot ext then ext else "." ++ ext)) ∧
    (∀ ext : String, startsWithDot ext = false →
      display_normalize_extensions [ext] =
        display_normalize_extensions ["." ++ ext]) ∧
    display_normalize_extensions ["PY"] = [".py"] ∧
    export_normalize_extensions [".py"] = [".py"] := by
  refine ⟨fun l => rfl, ?_, ?_, by decide, by decide⟩
  · intro ext
    by_cases h : startsWithDot ext = true
    · rw [if_pos h, if_pos h]
    · rw [if_neg h, if_neg h, strToLower_dot_append]
  · intro ext h
    unfold display_normalize_extensions
    simp only [List.map]
    rw [if_neg (by rw [h]; exact Bool.false_ne_true),
      if_pos (startsWithDot_dot_append ext), strToLower_dot_append]

/-- C8: `compare_directory_structures` runs the walker on both roots with
the identical filter configuration, returns the two filtered structures
verbatim, and its third component is exactly the union of the two walks'
extension sets. -/
theorem comparator_contract
    (gds : String → FilterConfig → DirStructure × List String)
    (dir1 dir2 : String) (cfg : FilterConfig) :
    (compare_directory_structures gds dir1 dir2 cfg).1 = (gds dir1 cfg).1 ∧
    (compare_directory_structures gds dir1 dir2 cfg).2.1 = (gds dir2 cfg).1 ∧
    ∀ e : String, e ∈ (compare_directory_structures gds dir1 dir2 cfg).2.2 ↔
      e ∈ (gds dir1 cfg).2 ∨ e ∈ (gds dir2 cfg).2 := by
  refine ⟨rfl, rfl, ?_⟩
  intro e
  exact List.mem_union_iff

/-- C2, evaluated at the failing input: with both sides equal to the
structure holding exactly `sub/a.txt`, the HTML export marks the nested
file `sub/a.txt` with the `file-unique` class in the first pane, while
the diff rule of the tree renderer classifies nothing as unique. -/
theorem html_unique_divergence_eval :
    (["sub", "a.txt"], EKind.file) ∈ htmlUniquePaths cexD cexD cexD true ∧
    uniquePaths cexD cexD = [] :=
  ⟨htmlUnique_cex_mem, uniquePaths_cexD⟩

/-- C10: every file of either side is rendered whatever the color map
holds; when the lowercased `splitext` extension has no entry, the lookup
falls back to "#FFFFFF" instead of failing, and the entry still appears. -/
theorem color_lookup_total_fallback (s o : DirStructure)
    (m : List (String × String)) (f : String) :
    (f ∈ s.files.getD [] →
      ∃ sty d, CTree.file f sty d ∈ build_comparison_tree s o m) ∧
    (f ∈ s.files.getD [] →
      m.find? (fun p => p.1 == strToLower (splitextExt f)) = none →
      (CTree.file f "#FFFFFF on green" Diff.onlyHere ∈ build_comparison_tree s o m ∨
       CTree.file f "#FFFFFF" Diff.common ∈ build_comparison_tree s o m)) ∧
    (f ∈ o.files.getD [] → f ∉ s.files.getD [] →
      m.find? (fun p => p.1 == strToLower (splitextExt f)) = none →
      CTree.file f "#FFFFFF on red" Diff.onlyThere ∈ build_comparison_tree s o m) := by
  have hpass1 : ∀ (hs : f ∈ s.files.getD []),
      (if f ∈ (if !o.isEmptyD then o.files.getD [] else []) then
        CTree.file f (colorMapGet m (strToLower (splitextExt f))) Diff.common
       else
        CTree.file f (colorMapGet m (strToLower (splitextExt f)) ++ " on green")
          Diff.onlyHere) ∈ build_comparison_tree s o m := by
    intro hs
    rw [build_comparison_tree_def]
    cases hsf : s.files with
    | none =>
      rw [hsf] at hs
      cases hs
    | some fs =>
      rw [hsf] at hs
      simp only [Option.getD_some] at hs
      apply List.mem_append.mpr
      refine Or.inl (List.mem_append.mpr (Or.inl (List.mem_append.mpr (Or.inl ?_))))
      by_cases hin : f ∈ (if !o.isEmptyD then o.files.getD [] else [])
      · rw [if_pos hin]
        exact mem_classifyFiles_isin hs hin
      · rw [if_neg hin]
        exact mem_classifyFiles_notin hs hin
  refine ⟨?_, ?_, ?_⟩
  · intro hs
    have := hpass1 hs
    by_cases hin : f ∈ (if !o.isEmptyD then o.files.getD [] else [])
    · rw [if_pos hin] at this
      exact ⟨_, _, this⟩
    · rw [if_neg hin] at this
      exact ⟨_, _, this⟩
  · intro hs hnone
    have := hpass1 hs
    rw [colorMapGet_none hnone] at this
    by_cases hin : f ∈ (if !o.isEmptyD then o.files.getD [] else [])
    · rw [if_pos hin] at this
      exact Or.inr this
    · rw [if_neg hin] at this
      exact Or.inl this
  · intro ho hs hnone
    rw [build_comparison_tree_def]
    cases hof : o.files with
    | none =>
      rw [hof] at ho
      cases ho
    | some fs =>
      rw [hof] at ho
      simp only [Option.getD_some] at ho
      apply List.mem_append.mpr
      refine Or.inl (List.mem_append.mpr (Or.inr ?_))
      rw [if_pos (by simp [isEmptyD_false_of_files_some hof])]
      have := @mem_onlyThereFiles f fs (s.files.getD []) m ho hs
      rw [colorMapGet_none hnone] at this
      simpa using this
